import Mathlib

/-!
Verification of the manifest-to-display transformation and the JSON
syntax highlighter of the `verify` repository.

The source is TypeScript operating on untyped (`unknown`) values returned
by an external SDK.  We model JavaScript values reaching the transformation
with the inductive type `Json` below (no `undefined` constructor: an absent
value is `Option.none` throughout, which is how the source observes it).
JavaScript exceptions (`TypeError` from calling `.filter`/`.map` on a
non-array or from property access on `null`) are modelled with
`Except Unit`, `Except.error ()` standing for a thrown exception.

Deliberate narrowings of JavaScript semantics, each irrelevant to the
claims and excluded from the loose-conformance predicate where it matters:
* numbers are integers (the manifests carry no fractional numbers);
* `for..of` over a string (strings are iterable in JS) is modelled as a
  `TypeError`; the conformance predicate requires arrays there;
* exotic coercions (`>` on non-numbers, objects with a `length` field of
  non-numeric type) evaluate to `false`/`0`.
-/

namespace Verify

/-- Model of a JavaScript value as observed by the display code. -/
inductive Json where
  | null : Json
  | bool : Bool → Json
  | num : Int → Json
  | str : String → Json
  | arr : List Json → Json
  | obj : List (String × Json) → Json

/-- Decimal parse of a property key, for numeric indexing (kernel-reducible
stand-in for the canonical-numeric-string check of property access). -/
def decDigits? : List Char → Option Nat
  | [] => none
  | l => l.foldl (fun acc c =>
      acc.bind fun n => if '0' ≤ c && c ≤ '9' then some (n * 10 + (c.toNat - 48)) else none)
      (some 0)

/-- `String.prototype.startsWith`, on character lists. -/
def strStartsWith (s pre : String) : Bool :=
  pre.data.isPrefixOf s.data

/-- True for every value other than `null` (property access on `null`
throws in JavaScript). -/
def notNull : Json → Bool
  | .null => false
  | _ => true

/-- JavaScript truthiness of a value. -/
def truthy : Json → Bool
  | .null => false
  | .bool b => b
  | .num n => n ≠ 0
  | .str s => s ≠ ""
  | .arr _ => true
  | .obj _ => true

/-- Truthiness of a possibly absent value (`undefined` is falsy). -/
def truthyO : Option Json → Bool
  | none => false
  | some j => truthy j

/-- JavaScript `a || b` on possibly absent values: the left operand if it
is truthy, otherwise the right operand. -/
def jsOr (a b : Option Json) : Option Json :=
  if truthyO a then a else b

mutual

/-- JavaScript `String(v)` coercion. -/
def jsToString : Json → String
  | .null => "null"
  | .bool b => if b then "true" else "false"
  | .num n => toString n
  | .str s => s
  | .arr xs => String.intercalate "," (jsToStringList xs)
  | .obj _ => "[object Object]"

/-- Elements of an array joined by `Array.prototype.toString`: a `null`
element stringifies to the empty string. -/
def jsToStringList : List Json → List String
  | [] => []
  | .null :: r => "" :: jsToStringList r
  | j :: r => jsToString j :: jsToStringList r

end

/-- String coercion of a resolved value (only used behind truthiness
guards, so the absent case is unreachable in the embedding). -/
def jsToStringO : Option Json → String
  | none => "undefined"
  | some j => jsToString j

/-- JavaScript property read `v[k]` (for a string key), covering the
accesses the source performs: object fields, `length` of arrays and
strings, and numeric indexing into arrays and strings.  Property access
on other primitives yields `undefined`. -/
def jsGet (j : Json) (k : String) : Option Json :=
  match j with
  | .obj fs => List.lookup k fs
  | .arr xs =>
    if k = "length" then some (.num xs.length)
    else (decDigits? k.data).bind fun i => xs.get? i
  | .str s =>
    if k = "length" then some (.num s.data.length)
    else (decDigits? k.data).bind fun i => (s.data.get? i).map fun c => .str (String.mk [c])
  | _ => none

/-- Property read on a possibly absent value; reading a property of
`undefined` or `null` throws in JavaScript, but every such read in the
source is guarded, so the guarded accessor returns `undefined` likewise. -/
def jsGetO (o : Option Json) (k : String) : Option Json :=
  match o with
  | none => none
  | some j => jsGet j k

/-- JavaScript `x > 0` as used on `author.length` / `ingredients.length`:
true only for a positive number. -/
def jsGtZero : Option Json → Bool
  | some (.num n) => n > 0
  | _ => false

/-- The check `x.length > 0` of the source. -/
def jsLenGtZero (o : Option Json) : Bool :=
  jsGtZero (jsGetO o "length")

/-- The count `x?.length || 0` of the stats section. -/
def statLen : Option Json → Nat
  | none => 0
  | some .null => 0
  | some j =>
    match jsGet j "length" with
    | some (.num n) => n.toNat
    | _ => 0

end Verify

namespace Verify

/-! ### Action formatting  (src/unnamed/part_000, `formatAction`, lines 102-121) -/

/-- The fixed lookup table of `formatAction`. -/
def actionMap : List (String × String) :=
  [("c2pa.created", "Created"),
   ("c2pa.opened", "Opened"),
   ("c2pa.edited", "Edited"),
   ("c2pa.converted", "Converted"),
   ("c2pa.resized", "Resized"),
   ("c2pa.cropped", "Cropped"),
   ("c2pa.color_adjustments", "Color Adjusted"),
   ("c2pa.filtered", "Filtered"),
   ("c2pa.drawing", "Drawing"),
   ("c2pa.placed", "Placed"),
   ("c2pa.removed", "Removed"),
   ("c2pa.repackaged", "Repackaged"),
   ("c2pa.transcoded", "Transcoded"),
   ("c2pa.unknown", "Unknown Action")]

/-- JavaScript `String.prototype.replace` with a *string* pattern removes
only the first occurrence; this is `action.replace('c2pa.', '')`,
implemented on character lists. -/
def removeFirstSeq (pat : List Char) : List Char → List Char
  | [] => []
  | c :: rest =>
    if pat.isPrefixOf (c :: rest) then (c :: rest).drop pat.length
    else c :: removeFirstSeq pat rest

/-- The fallback path `action.replace('c2pa.', '').replace(/_/g, ' ')`. -/
def fallbackFormat (action : String) : String :=
  String.mk ((removeFirstSeq "c2pa.".data action.data).map
    fun c => if c = '_' then ' ' else c)

/-- Translation of `formatAction`: table lookup with a fallback. -/
def formatAction (action : String) : String :=
  match List.lookup action actionMap with
  | some label => label
  | none => fallbackFormat action

/-! ### Validation-code formatting
(src/unnamed/part_000, `formatValidationCode`, lines 210-217) -/

/-- The regex class `[a-z]`. -/
def isLowerAZ (c : Char) : Bool := 'a' ≤ c && c ≤ 'z'

/-- The regex class `[A-Z]`. -/
def isUpperAZ (c : Char) : Bool := 'A' ≤ c && c ≤ 'Z'

/-- The regex class `\w`, i.e. `[A-Za-z0-9_]`. -/
def isWordChar (c : Char) : Bool :=
  isLowerAZ c || isUpperAZ c || ('0' ≤ c && c ≤ '9') || c = '_'

/-- Global replace of `/([a-z])([A-Z])/` by `'$1 $2'`: scanning left to
right, a space is inserted at each lowercase-uppercase boundary and the
scan resumes after the consumed pair, exactly like a global regex
replacement. -/
def camelSplit : List Char → List Char
  | c1 :: c2 :: rest =>
    if isLowerAZ c1 && isUpperAZ c2 then c1 :: ' ' :: c2 :: camelSplit rest
    else c1 :: camelSplit (c2 :: rest)
  | l => l

/-- The final `.replace(/^\w/, c => c.toUpperCase())`. -/
def capitalizeFirst (l : List Char) : List Char :=
  match l with
  | [] => []
  | c :: rest => if isWordChar c then c.toUpper :: rest else c :: rest

/-- Translation of `formatValidationCode`: dots to `" › "`, underscores to
spaces, a space at each lowercase-uppercase boundary, lowercase the whole
string, capitalize the first word character. -/
def formatValidationCode (code : String) : String :=
  String.mk (capitalizeFirst
    (((camelSplit
        ((code.data.flatMap fun c => if c = '.' then " › ".data else [c]).map
          fun c => if c = '_' then ' ' else c)).map Char.toLower)))

/-! ### Assertion scans
(src/unnamed/part_000, `extractAuthor` lines 146-161 and
`extractActions` lines 164-181) -/

/-- Test `a.label === '<label>' && a.data` of the two assertion scans. -/
def labelMatches (a : Json) (label : String) : Bool :=
  (match jsGet a "label" with
   | some (.str l) => l = label
   | _ => false) && truthyO (jsGet a "data")

/-- Translation of `extractAuthor`: first CreativeWork assertion whose
`data.author` is truthy with positive length *and* whose first entry has
a truthy `name`; otherwise the scan continues.  `Except.error ()` models
the `TypeError` thrown when an assertion is `null` or when
`author[0]` is `undefined`/`null` despite a positive length. -/
def extractAuthor : List Json → Except Unit (Option String)
  | [] => .ok none
  | .null :: _ => .error ()
  | a :: rest =>
    if labelMatches a "stds.schema-org.CreativeWork" then
      -- `author` is `data.author`; the length test and `author[0]` mirror
      -- `author && author.length > 0` and `author[0]`
      if truthyO (jsGetO (jsGet a "data") "author")
          && jsLenGtZero (jsGetO (jsGet a "data") "author") then
        match jsGetO (jsGetO (jsGet a "data") "author") "0" with
        | none => .error ()
        | some .null => .error ()
        | some firstAuthor =>
          if truthyO (jsGet firstAuthor "name") then
            .ok (some (jsToStringO (jsGet firstAuthor "name")))
          else extractAuthor rest
      else extractAuthor rest
    else extractAuthor rest

/-- The inner loop of `extractActions` over `data.actions`: pushes
`String(action.action)` for each entry with a truthy `action` field;
a `null` entry throws on the `action.action` access. -/
def collectActionStrings : List Json → Except Unit (List String)
  | [] => .ok []
  | .null :: _ => .error ()
  | a :: rest => do
    let r ← collectActionStrings rest
    if truthyO (jsGet a "action") then
      .ok (jsToStringO (jsGet a "action") :: r)
    else
      .ok r

/-- Translation of `extractActions`: every `c2pa.actions` assertion
contributes its action strings, in order.  `for..of` over a truthy
non-array `data.actions` throws. -/
def extractActions : List Json → Except Unit (List String)
  | [] => .ok []
  | .null :: _ => .error ()
  | a :: rest =>
    if labelMatches a "c2pa.actions" then
      let actionList := jsGetO (jsGet a "data") "actions"
      if truthyO actionList then
        match actionList with
        | some (.arr xs) => do
          let here ← collectActionStrings xs
          let r ← extractActions rest
          .ok (here ++ r)
        | _ => .error ()
      else extractActions rest
    else extractActions rest

end Verify

namespace Verify

/-! ### Display model
(src/unnamed/part_000, `createCredentialDetails`, lines 184-437)

The structured summary captures every data-dependent part of the HTML the
source builds; static markup (SVG icons, section titles) and the
`escapeHtml` call applied to each interpolated value are not part of the
model.  Each optional section is `none` exactly when the source emits no
markup for it. -/

/-- One rendered validation issue: the human-formatted code and the raw
explanation string (`''` when absent; the source hides the explanation
span exactly when this string is empty). -/
structure ValidationIssueView where
  code : String
  explanation : String
  deriving DecidableEq, Repr

/-- The "Signed By" section.  `certSerial` mirrors the `certSerial`
local of line 267, which the source computes but never interpolates. -/
structure SignerView where
  issuer : String
  signedAt : Option String
  certSerial : Option String
  deriving DecidableEq, Repr

/-- The "Content Information" section (raw locals of lines 294-297). -/
structure ContentView where
  author : Option String
  title : Option String
  format : Option String
  deriving DecidableEq, Repr

/-- The "Process" section: the derived app name and the raw action
strings (the template maps `formatAction` over them when rendering). -/
structure ProcessView where
  appName : Option String
  actions : List String
  deriving DecidableEq, Repr

/-- One ingredient row: title (with the `Ingredient ${index + 1}`
default) and format (`''` when absent, hiding the format span). -/
structure IngredientView where
  title : String
  format : String
  deriving DecidableEq, Repr

/-- The full details panel. -/
structure Details where
  signer : Option SignerView
  content : Option ContentView
  process : Option ProcessView
  ingredients : Option (List IngredientView)
  manifestCount : Nat
  assertionCount : Nat
  ingredientCount : Nat
  validation : List ValidationIssueView
  deriving DecidableEq, Repr

/-- Result of the transformation: either the dedicated
`<p class="no-details">No manifest details available.</p>` marker or a
details panel. -/
inductive CredentialOutput where
  | noDetails : CredentialOutput
  | details : Details → CredentialOutput
  deriving DecidableEq, Repr

/-! ### Field resolution and validation (lines 190-236) -/

/-- Line 190: `store.active_manifest || store.activeManifest`. -/
def resolveActiveKey (store : Json) : Option Json :=
  jsOr (jsGet store "active_manifest") (jsGet store "activeManifest")

/-- Line 194: `activeManifestKey && manifests ? manifests[activeManifestKey] : undefined`. -/
def resolveActiveManifest (store : Json) : Option Json :=
  if truthyO (resolveActiveKey store) && truthyO (jsGet store "manifests") then
    jsGetO (jsGet store "manifests") (jsToStringO (resolveActiveKey store))
  else none

/-- Line 202: `store.validation_status || store.validationStatus`. -/
def resolveValidation (store : Json) : Option Json :=
  jsOr (jsGet store "validation_status") (jsGet store "validationStatus")

/-- The filter callback of line 203-206:
`s.code && !String(s.code).startsWith('claim')`. -/
def isIssue (s : Json) : Bool :=
  truthyO (jsGet s "code") && !strStartsWith (jsToStringO (jsGet s "code")) "claim"

/-- The filter loop over the validation entries; accessing `s.code` on a
`null` element throws. -/
def filterIssueList : List Json → Except Unit (List Json)
  | [] => .ok []
  | .null :: _ => .error ()
  | s :: rest => do
    let r ← filterIssueList rest
    if isIssue s then .ok (s :: r) else .ok r

/-- Lines 202-206: `validationStatus?.filter(...) || []`.  The optional
chain turns `undefined`/`null` into `undefined`, rescued by `|| []`;
calling `.filter` on any other non-array throws. -/
def filterValidation : Option Json → Except Unit (List Json)
  | none => .ok []
  | some .null => .ok []
  | some (.arr xs) => filterIssueList xs
  | some _ => .error ()

/-- Lines 223-231: one issue rendered, code
`i.code ? String(i.code) : 'Unknown issue'` put through
`formatValidationCode`, explanation `i.explanation ? String(i.explanation) : ''`. -/
def issueView (i : Json) : ValidationIssueView :=
  { code := formatValidationCode
      (if truthyO (jsGet i "code") then jsToStringO (jsGet i "code") else "Unknown issue"),
    explanation :=
      if truthyO (jsGet i "explanation") then jsToStringO (jsGet i "explanation") else "" }

/-! ### Sections of the details panel (lines 260-433) -/

/-- Lines 264-268: the Signed By locals, built when the resolved
signature info is truthy. -/
def mkSigner (fmtDate : String → String) (si : Json) : SignerView :=
  { issuer :=
      if truthyO (jsGet si "issuer") then jsToStringO (jsGet si "issuer") else "Unknown Issuer",
    signedAt :=
      if truthyO (jsGet si "time") then some (fmtDate (jsToStringO (jsGet si "time"))) else none,
    certSerial :=
      if truthyO (jsOr (jsGet si "cert_serial_number") (jsGet si "certSerialNumber")) then
        some (jsToStringO (jsOr (jsGet si "cert_serial_number") (jsGet si "certSerialNumber")))
      else none }

/-- Truthiness of the string-or-null locals (`title`, `format`,
`author`, `claimGenerator`): `none` is `null`, `some ""` is falsy. -/
def strTruthy : Option String → Bool
  | none => false
  | some s => s ≠ ""

/-- Lines 343-345: first space-separated part of the claim generator,
underscores and forward slashes replaced by spaces
(`claimGenerator.split(' ')[0].replace(/_/g, ' ').replace(/\//g, ' ')`;
`split(' ')[0]` is the prefix before the first space character). -/
def appNameOf (s : String) : String :=
  String.mk (((s.data.takeWhile fun c => c ≠ ' ').map
      fun c => if c = '_' then ' ' else c).map
    fun c => if c = '/' then ' ' else c)

/-- Lines 397-406: the ingredient rows, with the 1-based index default
title; `ing.title` on a `null` element throws. -/
def mkIngredientViews : List Json → Nat → Except Unit (List IngredientView)
  | [], _ => .ok []
  | .null :: _, _ => .error ()
  | ing :: rest, index => do
    let r ← mkIngredientViews rest (index + 1)
    .ok ({ title :=
             if truthyO (jsGet ing "title") then jsToStringO (jsGet ing "title")
             else "Ingredient " ++ toString (index + 1),
           format :=
             if truthyO (jsGet ing "format") then jsToStringO (jsGet ing "format") else "" } :: r)

/-- Line 414: `manifests ? Object.keys(manifests).length : 0`. -/
def manifestKeyCount : Option Json → Nat
  | some (.obj fs) => fs.length
  | some (.str s) => s.length
  | _ => 0

/-- Lines 261-264: resolve the signature info under both conventions and
keep the section only when it is truthy. -/
def computeSigner (fmtDate : String → String) (am : Json) : Option SignerView :=
  match jsOr (jsGet am "signature_info") (jsGet am "signatureInfo") with
  | some si => if truthy si then some (mkSigner fmtDate si) else none
  | none => none

/-- Line 336: `(activeManifest.claim_generator || activeManifest.claimGenerator)
? String(...) : null`. -/
def computeClaimGenerator (am : Json) : Option String :=
  if truthyO (jsOr (jsGet am "claim_generator") (jsGet am "claimGenerator")) then
    some (jsToStringO (jsOr (jsGet am "claim_generator") (jsGet am "claimGenerator")))
  else none

/-- Line 414: the manifest count from the store's `manifests` field. -/
def computeManifestCount (store : Json) : Nat :=
  if truthyO (jsGet store "manifests") then manifestKeyCount (jsGet store "manifests") else 0

/-- Line 297: `assertions ? extractAuthor(assertions) : null`; iterating
a truthy non-array throws. -/
def computeAuthor (assertions : Option Json) : Except Unit (Option String) :=
  match assertions with
  | some (.arr xs) => extractAuthor xs
  | some j => if truthy j then .error () else pure none
  | none => pure none

/-- Line 337: `assertions ? extractActions(assertions) : []`. -/
def computeActions (assertions : Option Json) : Except Unit (List String) :=
  match assertions with
  | some (.arr xs) => extractActions xs
  | some j => if truthy j then .error () else pure []
  | none => pure []

/-- Lines 381-411: the ingredients section, present when
`ingredients && ingredients.length > 0`; `.map` on a truthy non-array
with a positive length throws. -/
def computeIngredients (ingredients : Option Json) :
    Except Unit (Option (List IngredientView)) :=
  if truthyO ingredients && jsLenGtZero ingredients then
    match ingredients with
    | some (.arr xs) => do
      let vs ← mkIngredientViews xs 0
      pure (some vs)
    | _ => .error ()
  else pure none

/-- Lines 201-433 of `createCredentialDetails`, once an active manifest
`am` has been resolved: builds every section of the details panel. -/
def buildDetails (fmtDate : String → String) (store : Json) (am : Json) :
    Except Unit Details := do
  -- Validation Status Section (lines 202-207)
  let validationIssues ← filterValidation (resolveValidation store)
  -- Signer/Issuer Section (lines 261-291)
  let signer := computeSigner fmtDate am
  -- Content Information Section (lines 294-333)
  let title := if truthyO (jsGet am "title") then some (jsToStringO (jsGet am "title")) else none
  let format :=
    if truthyO (jsGet am "format") then some (jsToStringO (jsGet am "format")) else none
  let author ← computeAuthor (jsGet am "assertions")
  let content : Option ContentView :=
    if strTruthy title || strTruthy format || strTruthy author then
      some { author := author, title := title, format := format }
    else none
  -- Process/Actions Section (lines 336-375)
  let claimGenerator := computeClaimGenerator am
  let actions ← computeActions (jsGet am "assertions")
  let appName : Option String :=
    match claimGenerator with
    | some s => if s = "" then some s else some (appNameOf s)
    | none => none
  let process : Option ProcessView :=
    if strTruthy claimGenerator || actions.length > 0 then
      some { appName := appName, actions := actions }
    else none
  -- Ingredients Section (lines 378-411)
  let ingredientSection ← computeIngredients (jsGet am "ingredients")
  -- Manifests Count and stats (lines 414-433)
  pure { signer := signer, content := content, process := process,
         ingredients := ingredientSection,
         manifestCount := computeManifestCount store,
         assertionCount := statLen (jsGet am "assertions"),
         ingredientCount := statLen (jsGet am "ingredients"),
         validation := validationIssues.map issueView }

/-- Translation of `createCredentialDetails` (lines 184-437).  A `null`
store throws on the first property access; when no truthy active manifest
resolves, the dedicated no-details marker is produced before any other
field is touched. -/
def createCredentialDetails (fmtDate : String → String) (store : Json) :
    Except Unit CredentialOutput :=
  if notNull store then
    match resolveActiveManifest store with
    | none => .ok .noDetails
    | some am =>
      if truthy am then (buildDetails fmtDate store am).map .details
      else .ok .noDetails
  else .error ()

end Verify

namespace Verify

/-! ### Dual-convention stores (claim about snake_case / camelCase)

An abstract store description together with two renderings of it — one
spelling every convention-sensitive key in snake_case, one in camelCase.
Fields whose spelling does not differ between the conventions (`title`,
`format`, `issuer`, `time`, `assertions`, `ingredients`, `manifests`,
assertion payloads) carry arbitrary `Json`; the validation status is a
sequence as in the data model. -/

/-- Abstract signature info: `certSerial` is spelled
`cert_serial_number` / `certSerialNumber`. -/
structure AbsSigInfo where
  issuer : Option Json
  time : Option Json
  certSerial : Option Json

/-- Abstract manifest: `claimGenerator` is spelled
`claim_generator` / `claimGenerator`, `signatureInfo` is spelled
`signature_info` / `signatureInfo`. -/
structure AbsManifest where
  title : Option Json
  format : Option Json
  claimGenerator : Option Json
  signatureInfo : Option AbsSigInfo
  assertions : Option Json
  ingredients : Option Json

/-- Abstract store: `activeManifest` is the active-manifest key, spelled
`active_manifest` / `activeManifest`; `validationStatus` is spelled
`validation_status` / `validationStatus`. -/
structure AbsStore where
  activeManifest : Option Json
  manifests : Option (List (String × AbsManifest))
  validationStatus : Option (List Json)

/-- An optional object field: present exactly when the value is. -/
def optField (k : String) : Option Json → List (String × Json)
  | some v => [(k, v)]
  | none => []

/-- Snake_case rendering of signature info. -/
def renderSigSnake (si : AbsSigInfo) : Json :=
  .obj (optField "issuer" si.issuer ++ optField "time" si.time ++
        optField "cert_serial_number" si.certSerial)

/-- CamelCase rendering of signature info. -/
def renderSigCamel (si : AbsSigInfo) : Json :=
  .obj (optField "issuer" si.issuer ++ optField "time" si.time ++
        optField "certSerialNumber" si.certSerial)

/-- Snake_case rendering of a manifest. -/
def renderManifestSnake (m : AbsManifest) : Json :=
  .obj (optField "title" m.title ++ optField "format" m.format ++
        optField "claim_generator" m.claimGenerator ++
        optField "signature_info" (m.signatureInfo.map renderSigSnake) ++
        optField "assertions" m.assertions ++ optField "ingredients" m.ingredients)

/-- CamelCase rendering of a manifest. -/
def renderManifestCamel (m : AbsManifest) : Json :=
  .obj (optField "title" m.title ++ optField "format" m.format ++
        optField "claimGenerator" m.claimGenerator ++
        optField "signatureInfo" (m.signatureInfo.map renderSigCamel) ++
        optField "assertions" m.assertions ++ optField "ingredients" m.ingredients)

/-- Render the manifests mapping with the given per-manifest rendering. -/
def renderManifests (g : AbsManifest → Json) (ms : List (String × AbsManifest)) : Json :=
  .obj (ms.map fun p => (p.1, g p.2))

/-- Snake_case rendering of a store. -/
def renderStoreSnake (S : AbsStore) : Json :=
  .obj (optField "active_manifest" S.activeManifest ++
        optField "manifests" (S.manifests.map (renderManifests renderManifestSnake)) ++
        optField "validation_status" (S.validationStatus.map .arr))

/-- CamelCase rendering of a store. -/
def renderStoreCamel (S : AbsStore) : Json :=
  .obj (optField "activeManifest" S.activeManifest ++
        optField "manifests" (S.manifests.map (renderManifests renderManifestCamel)) ++
        optField "validationStatus" (S.validationStatus.map .arr))

end Verify

namespace Verify

/-! ### Field-resolution lemmas for the two renderings -/

theorem lookup_map_manifests (g : AbsManifest → Json) (key : String)
    (ms : List (String × AbsManifest)) :
    List.lookup key (ms.map fun p => (p.1, g p.2)) = (List.lookup key ms).map g := by
  induction ms with
  | nil => rfl
  | cons p rest ih =>
    obtain ⟨k, m⟩ := p
    cases hbk : (key == k) <;> simp [List.lookup, hbk, ih]

theorem get_snake_active (S : AbsStore) :
    jsGet (renderStoreSnake S) "active_manifest" = S.activeManifest := by
  obtain ⟨a, m, v⟩ := S
  cases a <;> cases m <;> cases v <;> rfl

theorem get_snake_activeCamel (S : AbsStore) :
    jsGet (renderStoreSnake S) "activeManifest" = none := by
  obtain ⟨a, m, v⟩ := S
  cases a <;> cases m <;> cases v <;> rfl

theorem get_camel_active (S : AbsStore) :
    jsGet (renderStoreCamel S) "activeManifest" = S.activeManifest := by
  obtain ⟨a, m, v⟩ := S
  cases a <;> cases m <;> cases v <;> rfl

theorem get_camel_activeSnake (S : AbsStore) :
    jsGet (renderStoreCamel S) "active_manifest" = none := by
  obtain ⟨a, m, v⟩ := S
  cases a <;> cases m <;> cases v <;> rfl

theorem get_snake_manifests (S : AbsStore) :
    jsGet (renderStoreSnake S) "manifests"
      = S.manifests.map (renderManifests renderManifestSnake) := by
  obtain ⟨a, m, v⟩ := S
  cases a <;> cases m <;> cases v <;> rfl

theorem get_camel_manifests (S : AbsStore) :
    jsGet (renderStoreCamel S) "manifests"
      = S.manifests.map (renderManifests renderManifestCamel) := by
  obtain ⟨a, m, v⟩ := S
  cases a <;> cases m <;> cases v <;> rfl

theorem get_snake_validation (S : AbsStore) :
    jsGet (renderStoreSnake S) "validation_status" = S.validationStatus.map .arr := by
  obtain ⟨a, m, v⟩ := S
  cases a <;> cases m <;> cases v <;> rfl

theorem get_snake_validationCamel (S : AbsStore) :
    jsGet (renderStoreSnake S) "validationStatus" = none := by
  obtain ⟨a, m, v⟩ := S
  cases a <;> cases m <;> cases v <;> rfl

theorem get_camel_validation (S : AbsStore) :
    jsGet (renderStoreCamel S) "validationStatus" = S.validationStatus.map .arr := by
  obtain ⟨a, m, v⟩ := S
  cases a <;> cases m <;> cases v <;> rfl

theorem get_camel_validationSnake (S : AbsStore) :
    jsGet (renderStoreCamel S) "validation_status" = none := by
  obtain ⟨a, m, v⟩ := S
  cases a <;> cases m <;> cases v <;> rfl

theorem get_manifestSnake_title (m : AbsManifest) :
    jsGet (renderManifestSnake m) "title" = m.title := by
  obtain ⟨t, f, c, si, a, i⟩ := m
  cases t <;> cases f <;> cases c <;> cases si <;> cases a <;> cases i <;> rfl

theorem get_manifestCamel_title (m : AbsManifest) :
    jsGet (renderManifestCamel m) "title" = m.title := by
  obtain ⟨t, f, c, si, a, i⟩ := m
  cases t <;> cases f <;> cases c <;> cases si <;> cases a <;> cases i <;> rfl

theorem get_manifestSnake_format (m : AbsManifest) :
    jsGet (renderManifestSnake m) "format" = m.format := by
  obtain ⟨t, f, c, si, a, i⟩ := m
  cases t <;> cases f <;> cases c <;> cases si <;> cases a <;> cases i <;> rfl

theorem get_manifestCamel_format (m : AbsManifest) :
    jsGet (renderManifestCamel m) "format" = m.format := by
  obtain ⟨t, f, c, si, a, i⟩ := m
  cases t <;> cases f <;> cases c <;> cases si <;> cases a <;> cases i <;> rfl

theorem get_manifestSnake_assertions (m : AbsManifest) :
    jsGet (renderManifestSnake m) "assertions" = m.assertions := by
  obtain ⟨t, f, c, si, a, i⟩ := m
  cases t <;> cases f <;> cases c <;> cases si <;> cases a <;> cases i <;> rfl

theorem get_manifestCamel_assertions (m : AbsManifest) :
    jsGet (renderManifestCamel m) "assertions" = m.assertions := by
  obtain ⟨t, f, c, si, a, i⟩ := m
  cases t <;> cases f <;> cases c <;> cases si <;> cases a <;> cases i <;> rfl

theorem get_manifestSnake_ingredients (m : AbsManifest) :
    jsGet (renderManifestSnake m) "ingredients" = m.ingredients := by
  obtain ⟨t, f, c, si, a, i⟩ := m
  cases t <;> cases f <;> cases c <;> cases si <;> cases a <;> cases i <;> rfl

theorem get_manifestCamel_ingredients (m : AbsManifest) :
    jsGet (renderManifestCamel m) "ingredients" = m.ingredients := by
  obtain ⟨t, f, c, si, a, i⟩ := m
  cases t <;> cases f <;> cases c <;> cases si <;> cases a <;> cases i <;> rfl

theorem get_manifestSnake_cg (m : AbsManifest) :
    jsGet (renderManifestSnake m) "claim_generator" = m.claimGenerator := by
  obtain ⟨t, f, c, si, a, i⟩ := m
  cases t <;> cases f <;> cases c <;> cases si <;> cases a <;> cases i <;> rfl

theorem get_manifestSnake_cgCamel (m : AbsManifest) :
    jsGet (renderManifestSnake m) "claimGenerator" = none := by
  obtain ⟨t, f, c, si, a, i⟩ := m
  cases t <;> cases f <;> cases c <;> cases si <;> cases a <;> cases i <;> rfl

theorem get_manifestCamel_cg (m : AbsManifest) :
    jsGet (renderManifestCamel m) "claimGenerator" = m.claimGenerator := by
  obtain ⟨t, f, c, si, a, i⟩ := m
  cases t <;> cases f <;> cases c <;> cases si <;> cases a <;> cases i <;> rfl

theorem get_manifestCamel_cgSnake (m : AbsManifest) :
    jsGet (renderManifestCamel m) "claim_generator" = none := by
  obtain ⟨t, f, c, si, a, i⟩ := m
  cases t <;> cases f <;> cases c <;> cases si <;> cases a <;> cases i <;> rfl

theorem get_manifestSnake_sig (m : AbsManifest) :
    jsGet (renderManifestSnake m) "signature_info" = m.signatureInfo.map renderSigSnake := by
  obtain ⟨t, f, c, si, a, i⟩ := m
  cases t <;> cases f <;> cases c <;> cases si <;> cases a <;> cases i <;> rfl

theorem get_manifestSnake_sigCamel (m : AbsManifest) :
    jsGet (renderManifestSnake m) "signatureInfo" = none := by
  obtain ⟨t, f, c, si, a, i⟩ := m
  cases t <;> cases f <;> cases c <;> cases si <;> cases a <;> cases i <;> rfl

theorem get_manifestCamel_sig (m : AbsManifest) :
    jsGet (renderManifestCamel m) "signatureInfo" = m.signatureInfo.map renderSigCamel := by
  obtain ⟨t, f, c, si, a, i⟩ := m
  cases t <;> cases f <;> cases c <;> cases si <;> cases a <;> cases i <;> rfl

theorem get_manifestCamel_sigSnake (m : AbsManifest) :
    jsGet (renderManifestCamel m) "signature_info" = none := by
  obtain ⟨t, f, c, si, a, i⟩ := m
  cases t <;> cases f <;> cases c <;> cases si <;> cases a <;> cases i <;> rfl

theorem get_sigSnake_issuer (si : AbsSigInfo) :
    jsGet (renderSigSnake si) "issuer" = si.issuer := by
  obtain ⟨u, t, c⟩ := si
  cases u <;> cases t <;> cases c <;> rfl

theorem get_sigCamel_issuer (si : AbsSigInfo) :
    jsGet (renderSigCamel si) "issuer" = si.issuer := by
  obtain ⟨u, t, c⟩ := si
  cases u <;> cases t <;> cases c <;> rfl

theorem get_sigSnake_time (si : AbsSigInfo) :
    jsGet (renderSigSnake si) "time" = si.time := by
  obtain ⟨u, t, c⟩ := si
  cases u <;> cases t <;> cases c <;> rfl

theorem get_sigCamel_time (si : AbsSigInfo) :
    jsGet (renderSigCamel si) "time" = si.time := by
  obtain ⟨u, t, c⟩ := si
  cases u <;> cases t <;> cases c <;> rfl

theorem get_sigSnake_serial (si : AbsSigInfo) :
    jsGet (renderSigSnake si) "cert_serial_number" = si.certSerial := by
  obtain ⟨u, t, c⟩ := si
  cases u <;> cases t <;> cases c <;> rfl

theorem get_sigSnake_serialCamel (si : AbsSigInfo) :
    jsGet (renderSigSnake si) "certSerialNumber" = none := by
  obtain ⟨u, t, c⟩ := si
  cases u <;> cases t <;> cases c <;> rfl

theorem get_sigCamel_serial (si : AbsSigInfo) :
    jsGet (renderSigCamel si) "certSerialNumber" = si.certSerial := by
  obtain ⟨u, t, c⟩ := si
  cases u <;> cases t <;> cases c <;> rfl

theorem get_sigCamel_serialSnake (si : AbsSigInfo) :
    jsGet (renderSigCamel si) "cert_serial_number" = none := by
  obtain ⟨u, t, c⟩ := si
  cases u <;> cases t <;> cases c <;> rfl

end Verify

namespace Verify

/-! ### Equivalence of the two renderings under the transformation -/

theorem jsOr_none_left (b : Option Json) : jsOr none b = b := rfl

theorem jsOr_none_right (a : Option Json) :
    jsOr a none = if truthyO a then a else none := rfl

/-- The active manifest both renderings resolve, described abstractly. -/
def absActive (S : AbsStore) : Option AbsManifest :=
  if truthyO S.activeManifest then
    match S.manifests with
    | some ms => List.lookup (jsToStringO S.activeManifest) ms
    | none => none
  else none

theorem resolveKey_snake (S : AbsStore) :
    resolveActiveKey (renderStoreSnake S) = jsOr S.activeManifest none := by
  rw [resolveActiveKey, get_snake_active, get_snake_activeCamel]

theorem resolveKey_camel (S : AbsStore) :
    resolveActiveKey (renderStoreCamel S) = S.activeManifest := by
  rw [resolveActiveKey, get_camel_activeSnake, get_camel_active, jsOr_none_left]

theorem ram_snake (S : AbsStore) :
    resolveActiveManifest (renderStoreSnake S) = (absActive S).map renderManifestSnake := by
  rw [resolveActiveManifest, absActive, resolveKey_snake, get_snake_manifests, jsOr_none_right]
  cases hA : S.activeManifest with
  | none => rfl
  | some a =>
    cases ht : truthy a with
    | false => simp [truthyO, ht]
    | true =>
      simp only [truthyO, ht, if_true]
      cases S.manifests with
      | none => rfl
      | some ms =>
        simp only [Option.map_some', renderManifests, truthy, Bool.true_and, if_true,
          jsGetO, jsGet]
        rw [lookup_map_manifests]

theorem ram_camel (S : AbsStore) :
    resolveActiveManifest (renderStoreCamel S) = (absActive S).map renderManifestCamel := by
  rw [resolveActiveManifest, absActive, resolveKey_camel, get_camel_manifests]
  cases hA : S.activeManifest with
  | none => rfl
  | some a =>
    cases ht : truthy a with
    | false => simp [truthyO, ht]
    | true =>
      simp only [truthyO, ht, if_true]
      cases S.manifests with
      | none => rfl
      | some ms =>
        simp only [Option.map_some', renderManifests, truthy, Bool.true_and, if_true,
          jsGetO, jsGet]
        rw [lookup_map_manifests]

theorem resolveValidation_equiv (S : AbsStore) :
    resolveValidation (renderStoreSnake S) = resolveValidation (renderStoreCamel S) := by
  rw [resolveValidation, resolveValidation, get_snake_validation, get_snake_validationCamel,
      get_camel_validation, get_camel_validationSnake, jsOr_none_left]
  cases S.validationStatus with
  | none => rfl
  | some xs => rfl

theorem computeManifestCount_equiv (S : AbsStore) :
    computeManifestCount (renderStoreSnake S) = computeManifestCount (renderStoreCamel S) := by
  rw [computeManifestCount, computeManifestCount, get_snake_manifests, get_camel_manifests]
  cases S.manifests with
  | none => rfl
  | some ms =>
    simp [truthyO, truthy, renderManifests, manifestKeyCount]

theorem mkSigner_equiv (f : String → String) (si : AbsSigInfo) :
    mkSigner f (renderSigSnake si) = mkSigner f (renderSigCamel si) := by
  rw [mkSigner, mkSigner, get_sigSnake_issuer, get_sigSnake_time, get_sigSnake_serial,
      get_sigSnake_serialCamel, get_sigCamel_issuer, get_sigCamel_time, get_sigCamel_serial,
      get_sigCamel_serialSnake, jsOr_none_left, jsOr_none_right]
  cases hA : si.certSerial with
  | none => rfl
  | some c => cases ht : truthy c <;> simp [truthyO, ht]

theorem computeSigner_equiv (f : String → String) (m : AbsManifest) :
    computeSigner f (renderManifestSnake m) = computeSigner f (renderManifestCamel m) := by
  rw [computeSigner, computeSigner, get_manifestSnake_sig, get_manifestSnake_sigCamel,
      get_manifestCamel_sig, get_manifestCamel_sigSnake, jsOr_none_left, jsOr_none_right]
  cases m.signatureInfo with
  | none => rfl
  | some si =>
    simp only [Option.map_some', truthyO, renderSigSnake, renderSigCamel, truthy, if_true]
    rw [← renderSigSnake, ← renderSigCamel, mkSigner_equiv]

theorem computeClaimGenerator_equiv (m : AbsManifest) :
    computeClaimGenerator (renderManifestSnake m) = computeClaimGenerator (renderManifestCamel m) := by
  rw [computeClaimGenerator, computeClaimGenerator, get_manifestSnake_cg,
      get_manifestSnake_cgCamel, get_manifestCamel_cg, get_manifestCamel_cgSnake,
      jsOr_none_left, jsOr_none_right]
  cases hA : m.claimGenerator with
  | none => rfl
  | some c => cases ht : truthy c <;> simp [truthyO, ht]

theorem buildDetails_congr (f : String → String) {s1 s2 am1 am2 : Json}
    (hv : resolveValidation s1 = resolveValidation s2)
    (hmc : computeManifestCount s1 = computeManifestCount s2)
    (hsig : computeSigner f am1 = computeSigner f am2)
    (ht : jsGet am1 "title" = jsGet am2 "title")
    (hf : jsGet am1 "format" = jsGet am2 "format")
    (ha : jsGet am1 "assertions" = jsGet am2 "assertions")
    (hi : jsGet am1 "ingredients" = jsGet am2 "ingredients")
    (hcg : computeClaimGenerator am1 = computeClaimGenerator am2) :
    buildDetails f s1 am1 = buildDetails f s2 am2 := by
  rw [buildDetails, buildDetails, hv, hmc, hsig, ht, hf, ha, hi, hcg]

theorem buildDetails_equiv (f : String → String) (S : AbsStore) (m : AbsManifest) :
    buildDetails f (renderStoreSnake S) (renderManifestSnake m)
      = buildDetails f (renderStoreCamel S) (renderManifestCamel m) := by
  refine buildDetails_congr f (resolveValidation_equiv S) (computeManifestCount_equiv S)
    (computeSigner_equiv f m) ?_ ?_ ?_ ?_ (computeClaimGenerator_equiv m)
  · rw [get_manifestSnake_title, get_manifestCamel_title]
  · rw [get_manifestSnake_format, get_manifestCamel_format]
  · rw [get_manifestSnake_assertions, get_manifestCamel_assertions]
  · rw [get_manifestSnake_ingredients, get_manifestCamel_ingredients]

end Verify

namespace Verify

/-- C1: for every manifest-store value, the derived display summary is
identical whether the store spells its convention-sensitive fields
(active-manifest key, validation status list, signature info, cert
serial, claim generator) in snake_case or in camelCase, because each such
field is read under both conventions, preferring snake_case, falling back
to camelCase, finally undefined.  Proved for all abstract stores (in
particular those with a valid active-manifest key) and for every date
formatter. -/
theorem c1_dual_convention_equiv (f : String → String) (S : AbsStore) :
    createCredentialDetails f (renderStoreSnake S)
      = createCredentialDetails f (renderStoreCamel S) := by
  have hnotS : notNull (renderStoreSnake S) = true := rfl
  have hnotC : notNull (renderStoreCamel S) = true := rfl
  rw [createCredentialDetails, createCredentialDetails, hnotS, hnotC, ram_snake, ram_camel]
  simp only [if_true]
  cases absActive S with
  | none => rfl
  | some m =>
    simp only [Option.map_some']
    have ht1 : truthy (renderManifestSnake m) = true := rfl
    have ht2 : truthy (renderManifestCamel m) = true := rfl
    rw [ht1, ht2]
    simp only [if_true]
    rw [buildDetails_equiv]

end Verify

namespace Verify

instance {ε α : Type} [DecidableEq ε] [DecidableEq α] : DecidableEq (Except ε α) := fun a b =>
  match a, b with
  | .error x, .error y =>
      if h : x = y then .isTrue (h ▸ rfl) else .isFalse (fun hc => h (Except.error.inj hc))
  | .ok x, .ok y =>
      if h : x = y then .isTrue (h ▸ rfl) else .isFalse (fun hc => h (Except.ok.inj hc))
  | .error _, .ok _ => .isFalse (fun hc => Except.noConfusion hc)
  | .ok _, .error _ => .isFalse (fun hc => Except.noConfusion hc)

@[simp] theorem except_ok_bind {α β : Type} (a : α) (g : α → Except Unit β) :
    (Except.ok a : Except Unit α) >>= g = g a := rfl

@[simp] theorem except_error_bind {α β : Type} (g : α → Except Unit β) :
    (Except.error () : Except Unit α) >>= g = Except.error () := rfl

@[simp] theorem except_pure {α : Type} (a : α) :
    (pure a : Except Unit α) = Except.ok a := rfl

/-- C3: whenever no active-manifest key resolves, or the `manifests`
field is absent (falsy), or the key does not index an existing (truthy)
manifest, the transformation yields the dedicated no-details marker —
and in particular does not throw. -/
theorem c3_absent_manifest_no_details (f : String → String) (store : Json)
    (hnn : notNull store = true)
    (h : truthyO (resolveActiveKey store) = false
       ∨ truthyO (jsGet store "manifests") = false
       ∨ truthyO (jsGetO (jsGet store "manifests")
           (jsToStringO (resolveActiveKey store))) = false) :
    createCredentialDetails f store = .ok .noDetails := by
  rw [createCredentialDetails, hnn]
  simp only [if_true]
  rcases h with h | h | h
  · simp [resolveActiveManifest, h]
  · simp [resolveActiveManifest, h]
  · by_cases hc :
      (truthyO (resolveActiveKey store) && truthyO (jsGet store "manifests")) = true
    · rw [resolveActiveManifest, if_pos hc]
      cases hv : jsGetO (jsGet store "manifests") (jsToStringO (resolveActiveKey store)) with
      | none => rfl
      | some am =>
        rw [hv] at h
        simp only [truthyO] at h
        simp [h]
    · rw [resolveActiveManifest, if_neg hc]

/-- Witness for C3: the empty-manifests store with no active key from the
spec example (`manifests = {}`, `activeManifestKey = undefined`). -/
theorem c3_witness :
    createCredentialDetails id (.obj [("manifests", .obj [])]) = .ok .noDetails :=
  c3_absent_manifest_no_details id (.obj [("manifests", .obj [])]) rfl (Or.inl rfl)

/-- C9: the dual-convention lookups are truthiness-based: whenever the
snake_case spelling holds a falsy value (empty string, `null`, …) the
resolution falls back to the camelCase spelling, both for the
active-manifest key and for the validation-status list; consequently a
store with `active_manifest = ""` and `validation_status = null` is
displayed exactly like the store without those snake_case fields. -/
theorem c9_truthiness_fallback :
    (∀ store : Json, truthyO (jsGet store "active_manifest") = false →
        resolveActiveKey store = jsGet store "activeManifest")
  ∧ (∀ store : Json, truthyO (jsGet store "validation_status") = false →
        resolveValidation store = jsGet store "validationStatus")
  ∧ (∀ (f : String → String) (k : String) (m : Json),
        createCredentialDetails f (.obj
            [("active_manifest", .str ""), ("activeManifest", .str k),
             ("manifests", m), ("validation_status", .null), ("validationStatus", .arr [])])
          = createCredentialDetails f (.obj
            [("activeManifest", .str k), ("manifests", m), ("validationStatus", .arr [])])) := by
  refine ⟨fun store h => ?_, fun store h => ?_, fun f k m => ?_⟩
  · rw [resolveActiveKey, jsOr, h]
    simp
  · rw [resolveValidation, jsOr, h]
    simp
  · rfl

/-- Witness for C9 at concrete stores. -/
theorem c9_witness :
    resolveActiveKey (.obj [("active_manifest", .str ""), ("activeManifest", .str "urn:m1")])
        = jsGet (.obj [("active_manifest", .str ""), ("activeManifest", .str "urn:m1")])
            "activeManifest"
  ∧ resolveValidation (.obj [("validation_status", .null), ("validationStatus", .arr [])])
        = jsGet (.obj [("validation_status", .null), ("validationStatus", .arr [])])
            "validationStatus" :=
  ⟨c9_truthiness_fallback.1 _ rfl, c9_truthiness_fallback.2.1 _ rfl⟩

end Verify

namespace Verify

/-- One step of the validation filter on a non-`null` entry. -/
theorem filterIssueList_cons (j : Json) (rest : List Json) (hj : notNull j = true) :
    filterIssueList (j :: rest)
      = (do
          let r ← filterIssueList rest
          if isIssue j then .ok (j :: r) else .ok r) := by
  cases j with
  | null => simp [notNull] at hj
  | bool b => rfl
  | num n => rfl
  | str s => rfl
  | arr l => rfl
  | obj fs => rfl

/-- The validation filter keeps exactly the `isIssue` entries (over lists
of non-`null` entries, where no access throws). -/
theorem filterIssueList_eq_filter (xs : List Json)
    (h : ∀ j ∈ xs, notNull j = true) :
    filterIssueList xs = .ok (xs.filter isIssue) := by
  induction xs with
  | nil => rfl
  | cons j rest ih =>
    rw [filterIssueList_cons j rest (h j (by simp)),
        ih (fun x hx => h x (by simp [hx]))]
    cases hi : isIssue j <;> simp [List.filter, hi]

/-- The store used by the C10 statement: a valid active manifest and the
given validation entries. -/
def c10Store (xs : List Json) : Json :=
  .obj [("active_manifest", .str "m"), ("manifests", .obj [("m", .obj [])]),
        ("validation_status", .arr xs)]

/-- The details the C10 store displays: the verdict is valid (no
issues). -/
def c10Details : Details :=
  { signer := none, content := none, process := none, ingredients := none,
    manifestCount := 1, assertionCount := 0, ingredientCount := 0, validation := [] }

/-- C10: a validation entry whose `code` is absent, `null` or empty (that
is, falsy) is never counted as an issue, and a store whose validation
list contains only such entries displays the valid verdict. -/
theorem c10_codeless_entries_valid :
    (∀ xs : List Json,
        (∀ j ∈ xs, notNull j = true ∧ truthyO (jsGet j "code") = false) →
        filterValidation (some (.arr xs)) = .ok [])
  ∧ (∀ (f : String → String) (xs : List Json),
        (∀ j ∈ xs, notNull j = true ∧ truthyO (jsGet j "code") = false) →
        createCredentialDetails f (c10Store xs) = .ok (.details c10Details)) := by
  have key : ∀ xs : List Json,
      (∀ j ∈ xs, notNull j = true ∧ truthyO (jsGet j "code") = false) →
      filterValidation (some (.arr xs)) = .ok [] := by
    intro xs h
    show filterIssueList xs = .ok []
    rw [filterIssueList_eq_filter xs (fun j hj => (h j hj).1)]
    have : xs.filter isIssue = [] := by
      apply List.filter_eq_nil_iff.mpr
      intro j hj
      simp [isIssue, (h j hj).2]
    rw [this]
  refine ⟨key, fun f xs h => ?_⟩
  have hval : resolveValidation (c10Store xs) = some (.arr xs) := rfl
  have hbd : buildDetails f (c10Store xs) (.obj []) = .ok c10Details := by
    rw [buildDetails, hval, key xs h]
    rfl
  rw [createCredentialDetails]
  have h1 : resolveActiveManifest (c10Store xs) = some (.obj []) := rfl
  simp only [show notNull (c10Store xs) = true from rfl, if_true, h1]
  rw [show truthy (.obj ([] : List (String × Json))) = true from rfl]
  simp only [if_true]
  rw [hbd]
  rfl

/-- Witness for C10: entries with an absent, `null` and empty `code`. -/
theorem c10_witness :
    createCredentialDetails id
        (c10Store [.obj [], .obj [("code", .null)], .obj [("code", .str "")]])
      = .ok (.details c10Details) :=
  c10_codeless_entries_valid.2 id _ (by decide)

end Verify

namespace Verify

/-- The validation-status list of the C2 example. -/
def c2Entries : List Json :=
  [.obj [("code", .str "claim.signingCredential.trusted")],
   .obj [("code", .str "signingCredential.untrusted"), ("explanation", .str "x")]]

/-- The store of the C2 example: a valid active manifest plus the two
validation entries. -/
def c2Store : Json :=
  .obj [("active_manifest", .str "m"), ("manifests", .obj [("m", .obj [])]),
        ("validation_status", .arr c2Entries)]

/-- What the C2 store displays: one issue, whose formatted code keeps the
` › ` separator that the dot-replacement step inserts. -/
def c2Details : Details :=
  { signer := none, content := none, process := none, ingredients := none,
    manifestCount := 1, assertionCount := 0, ingredientCount := 0,
    validation := [{ code := "Signing credential › untrusted", explanation := "x" }] }

/-- Counterexample to C2 as stated: on the claim's own example the
formatted code of the single issue is "Signing credential › untrusted"
(the dot is replaced by " › "), not "Signing credential untrusted". -/
theorem c2_counterexample :
    createCredentialDetails id c2Store = .ok (.details c2Details)
  ∧ c2Details.validation = [{ code := "Signing credential › untrusted", explanation := "x" }]
  ∧ formatValidationCode "signingCredential.untrusted" ≠ "Signing credential untrusted" := by
  refine ⟨rfl, rfl, by decide⟩

/-- C2 amended: the verdict filters the validation list to the entries
with a truthy code that does not start with "claim"; the verdict is
issues iff this filtered set is non-empty; on the example list the
verdict is exactly one issue with formatted code
"Signing credential › untrusted" and explanation "x", the `claim.*`
entry excluded. -/
theorem c2_validation_verdict_amended :
    (∀ xs : List Json, (∀ j ∈ xs, notNull j = true) →
        filterValidation (some (.arr xs)) = .ok (xs.filter isIssue))
  ∧ (∀ f : String → String, createCredentialDetails f c2Store = .ok (.details c2Details))
  ∧ c2Details.validation
      = [{ code := "Signing credential › untrusted", explanation := "x" }] := by
  refine ⟨fun xs h => filterIssueList_eq_filter xs h, fun f => ?_, rfl⟩
  have hval : resolveValidation c2Store = some (.arr c2Entries) := rfl
  have hfil : filterValidation (some (.arr c2Entries))
      = .ok (c2Entries.filter isIssue) :=
    filterIssueList_eq_filter c2Entries (by decide)
  have hbd : buildDetails f c2Store (.obj []) = .ok c2Details := by
    rw [buildDetails, hval, hfil]
    rfl
  rw [createCredentialDetails]
  have h1 : resolveActiveManifest c2Store = some (.obj []) := rfl
  simp only [show notNull c2Store = true from rfl, if_true, h1]
  rw [show truthy (.obj ([] : List (String × Json))) = true from rfl]
  simp only [if_true]
  rw [hbd]
  rfl

/-- Witness for the amended C2 statement on the example entries. -/
theorem c2_witness :
    filterValidation (some (.arr c2Entries)) = .ok (c2Entries.filter isIssue) :=
  c2_validation_verdict_amended.1 c2Entries (by decide)

end Verify


namespace Verify

/-- Modelled from the claim's wording, for comparison with the code's
fallback: strip the `c2pa.` prefix (only when it is a prefix) and
replace underscores with spaces. -/
def formatActionSpecFallback (action : String) : String :=
  String.mk
    (((if "c2pa.".data.isPrefixOf action.data then action.data.drop 5 else action.data).map
      fun c => if c = '_' then ' ' else c))

/-- Counterexample to C4 as stated: the code's fallback removes the first
occurrence of the substring `c2pa.` anywhere in the action code, not only
a prefix; on the unmapped code `x_c2pa.y` the code yields "x y" while the
claimed prefix-stripping fallback yields "x c2pa.y". -/
theorem c4_counterexample :
    List.lookup "x_c2pa.y" actionMap = none
  ∧ formatAction "x_c2pa.y" = "x y"
  ∧ formatActionSpecFallback "x_c2pa.y" = "x c2pa.y"
  ∧ formatAction "x_c2pa.y" ≠ formatActionSpecFallback "x_c2pa.y" := by
  refine ⟨rfl, rfl, rfl, by decide⟩

/-- One step of the action scan on a non-`null` assertion. -/
theorem extractActions_cons (a : Json) (rest : List Json) (ha : notNull a = true) :
    extractActions (a :: rest)
      = if labelMatches a "c2pa.actions" then
          if truthyO (jsGetO (jsGet a "data") "actions") then
            match jsGetO (jsGet a "data") "actions" with
            | some (.arr xs) => do
              let here ← collectActionStrings xs
              let r ← extractActions rest
              .ok (here ++ r)
            | _ => .error ()
          else extractActions rest
        else extractActions rest := by
  cases a with
  | null => simp [notNull] at ha
  | bool b => rfl
  | num n => rfl
  | str s => rfl
  | arr l => rfl
  | obj fs => rfl

/-- Auxiliary step for the concatenation law of `extractActions`. -/
theorem extractActions_append_step (j : Json) (rest ys : List Json)
    (hn : notNull j = true)
    (ih : extractActions (rest ++ ys)
      = do
          let a ← extractActions rest
          let b ← extractActions ys
          pure (a ++ b)) :
    extractActions ((j :: rest) ++ ys)
      = (do
          let a ← extractActions (j :: rest)
          let b ← extractActions ys
          pure (a ++ b)) := by
  rw [List.cons_append, extractActions_cons j (rest ++ ys) hn, extractActions_cons j rest hn]
  cases hl : labelMatches j "c2pa.actions" with
  | false =>
    simp only [hl, Bool.false_eq_true, if_false]
    exact ih
  | true =>
    simp only [hl, if_true]
    cases ht : truthyO (jsGetO (jsGet j "data") "actions") with
    | false =>
      simp only [ht, Bool.false_eq_true, if_false]
      exact ih
    | true =>
      simp only [ht, if_true]
      cases hal : jsGetO (jsGet j "data") "actions" with
      | none => rw [hal] at ht; simp [truthyO] at ht
      | some v =>
        cases v with
        | arr xs0 =>
          rw [ih]
          cases hc : collectActionStrings xs0 with
          | error e => cases e; simp [hc]
          | ok here =>
            cases h1 : extractActions rest with
            | error e => cases e; simp [hc, h1]
            | ok r1 =>
              cases h2 : extractActions ys with
              | error e => cases e; simp [hc, h1, h2]
              | ok r2 => simp [hc, h1, h2, List.append_assoc]
        | null => simp
        | bool b => simp
        | num n => simp
        | str s => simp
        | obj fs => simp

/-- The first example assertion of C4. -/
def c4A1 : Json :=
  .obj [("label", .str "c2pa.actions"),
        ("data", .obj [("actions", .arr [.obj [("action", .str "c2pa.created")]])])]

/-- The second example assertion of C4, carrying two actions. -/
def c4A2 : Json :=
  .obj [("label", .str "c2pa.actions"),
        ("data", .obj [("actions", .arr
          [.obj [("action", .str "c2pa.resized")],
           .obj [("action", .str "c2pa.unknown_code")]])])]

/-- C4 amended: action extraction accumulates, in assertion order and
with duplicates preserved, every truthy action string from every
`c2pa.actions` assertion (extraction distributes over concatenation of
assertion lists, so all such assertions contribute); each code is mapped
through the fourteen-entry table, and an unmapped code falls back to
removing the *first occurrence of the substring* `c2pa.` (not only a
prefix) and replacing underscores with spaces, with no capitalization; on
the example the result is ["Created", "Resized", "unknown code"]. -/
theorem c4_actions_amended :
    (∀ xs ys : List Json,
        extractActions (xs ++ ys)
          = do
              let a ← extractActions xs
              let b ← extractActions ys
              pure (a ++ b))
  ∧ (∀ s : List Char, removeFirstSeq "c2pa.".data ("c2pa.".data ++ s) = s)
  ∧ (∀ a : String, formatAction a = (List.lookup a actionMap).getD (fallbackFormat a))
  ∧ extractActions [c4A1, c4A2] = .ok ["c2pa.created", "c2pa.resized", "c2pa.unknown_code"]
  ∧ ["c2pa.created", "c2pa.resized", "c2pa.unknown_code"].map formatAction
      = ["Created", "Resized", "unknown code"] := by
  refine ⟨?_, ?_, ?_, rfl, rfl⟩
  · intro xs ys
    induction xs with
    | nil =>
      show extractActions ys = _
      cases h : extractActions ys with
      | error e =>
        cases e
        simp [show extractActions ([] : List Json) = .ok [] from rfl, h]
      | ok r =>
        simp [show extractActions ([] : List Json) = .ok [] from rfl, h]
    | cons j rest ih =>
      cases j with
      | null => simp [extractActions]
      | bool b => exact extractActions_append_step (.bool b) rest ys rfl ih
      | num n => exact extractActions_append_step (.num n) rest ys rfl ih
      | str s => exact extractActions_append_step (.str s) rest ys rfl ih
      | arr l => exact extractActions_append_step (.arr l) rest ys rfl ih
      | obj fs => exact extractActions_append_step (.obj fs) rest ys rfl ih
  · intro s
    show removeFirstSeq "c2pa.".data ('c' :: '2' :: 'p' :: 'a' :: '.' :: s) = s
    rw [removeFirstSeq]
    have hp : "c2pa.".data.isPrefixOf ('c' :: '2' :: 'p' :: 'a' :: '.' :: s) = true := by
      simp [List.isPrefixOf]
    rw [if_pos hp]
    simp
  · intro a
    rw [formatAction]
    cases h : List.lookup a actionMap <;> simp [h]

end Verify

namespace Verify

/-- One iteration of the `extractAuthor` loop: `some name` means return,
`none` means continue scanning, an error is the thrown access of
`author[0].name` when `author[0]` is `undefined`/`null` despite a
positive length. -/
def authorStep (a : Json) : Except Unit (Option String) :=
  if labelMatches a "stds.schema-org.CreativeWork" then
    if truthyO (jsGetO (jsGet a "data") "author")
        && jsLenGtZero (jsGetO (jsGet a "data") "author") then
      match jsGetO (jsGetO (jsGet a "data") "author") "0" with
      | none => .error ()
      | some .null => .error ()
      | some firstAuthor =>
        if truthyO (jsGet firstAuthor "name") then
          .ok (some (jsToStringO (jsGet firstAuthor "name")))
        else .ok none
    else .ok none
  else .ok none

/-- Modelled from the claim's wording, for comparison with the code:
return the name of the first author entry under the *first* assertion
labeled `stds.schema-org.CreativeWork` that has a non-empty author list
(only that assertion is consulted), and null if no such assertion
exists. -/
def extractAuthorSpec : List Json → Option String
  | [] => none
  | a :: rest =>
    if (match jsGet a "label" with
        | some (.str l) => l = "stds.schema-org.CreativeWork"
        | _ => false)
       && (match jsGetO (jsGet a "data") "author" with
           | some (.arr (_ :: _)) => true
           | _ => false) then
      match jsGetO (jsGetO (jsGet a "data") "author") "0" with
      | some entry =>
        (jsGet entry "name").map jsToString
      | none => none
    else extractAuthorSpec rest

/-- A CreativeWork assertion whose single author entry has no `name`. -/
def c5NoName : Json :=
  .obj [("label", .str "stds.schema-org.CreativeWork"),
        ("data", .obj [("author", .arr [.obj [("id", .num 1)]])])]

/-- A CreativeWork assertion whose single author entry is named "Jane". -/
def c5Jane : Json :=
  .obj [("label", .str "stds.schema-org.CreativeWork"),
        ("data", .obj [("author", .arr [.obj [("name", .str "Jane")]])])]

/-- Counterexample to C5 as stated: the first CreativeWork assertion with
a non-empty author list has a first entry without a name; the claim says
only that assertion is consulted (result null), but the code continues
scanning and returns "Jane" from the second such assertion. -/
theorem c5_counterexample :
    extractAuthor [c5NoName, c5Jane] = .ok (some "Jane")
  ∧ extractAuthorSpec [c5NoName, c5Jane] = none := by
  refine ⟨rfl, rfl⟩

/-- The CreativeWork assertion with an empty author list from the
claim's example. -/
def c5EmptyAuthors : Json :=
  .obj [("label", .str "stds.schema-org.CreativeWork"),
        ("data", .obj [("author", .arr [])])]

/-- A CreativeWork assertion naming "Jane Doe". -/
def c5JaneDoe : Json :=
  .obj [("label", .str "stds.schema-org.CreativeWork"),
        ("data", .obj [("author", .arr [.obj [("name", .str "Jane Doe")]])])]

/-- C5 amended: author extraction scans the assertions in order and
returns the name of the first CreativeWork assertion whose author list is
non-empty *and* whose first author entry carries a truthy name;
assertions failing any of these conditions (including a first entry
without a name) are skipped and the scan continues; null when no
assertion qualifies.  On the claim's example the empty-author-list
assertion is skipped and the result is "Jane Doe". -/
theorem extractAuthor_cons_eq (a : Json) (rest : List Json) (hn : notNull a = true) :
    extractAuthor (a :: rest)
      = match authorStep a with
        | .error e => .error e
        | .ok (some n) => .ok (some n)
        | .ok none => extractAuthor rest := by
  have hstep : extractAuthor (a :: rest)
      = if labelMatches a "stds.schema-org.CreativeWork" then
          if truthyO (jsGetO (jsGet a "data") "author")
              && jsLenGtZero (jsGetO (jsGet a "data") "author") then
            match jsGetO (jsGetO (jsGet a "data") "author") "0" with
            | none => .error ()
            | some .null => .error ()
            | some firstAuthor =>
              if truthyO (jsGet firstAuthor "name") then
                .ok (some (jsToStringO (jsGet firstAuthor "name")))
              else extractAuthor rest
          else extractAuthor rest
        else extractAuthor rest := by
    cases a with
    | null => simp [notNull] at hn
    | bool b => rfl
    | num n => rfl
    | str s => rfl
    | arr l => rfl
    | obj fs => rfl
  rw [hstep, authorStep]
  by_cases hl : labelMatches a "stds.schema-org.CreativeWork" = true
  case neg =>
    simp only [Bool.not_eq_true] at hl
    simp only [hl, Bool.false_eq_true, if_false]
  case pos =>
    simp only [hl, if_true]
    by_cases hlen : (truthyO (jsGetO (jsGet a "data") "author")
        && jsLenGtZero (jsGetO (jsGet a "data") "author")) = true
    case neg =>
      simp only [Bool.not_eq_true] at hlen
      simp only [hlen, Bool.false_eq_true, if_false]
    case pos =>
      simp only [hlen, if_true]
      cases h0 : jsGetO (jsGetO (jsGet a "data") "author") "0" with
      | none => rfl
      | some fa =>
        cases fa with
        | null => rfl
        | bool b =>
          by_cases hnm : truthyO (jsGet (Json.bool b) "name") = true
          · simp only [hnm, if_true]
          · simp only [Bool.not_eq_true] at hnm
            simp only [hnm, Bool.false_eq_true, if_false]
        | num n =>
          by_cases hnm : truthyO (jsGet (Json.num n) "name") = true
          · simp only [hnm, if_true]
          · simp only [Bool.not_eq_true] at hnm
            simp only [hnm, Bool.false_eq_true, if_false]
        | str s =>
          by_cases hnm : truthyO (jsGet (Json.str s) "name") = true
          · simp only [hnm, if_true]
          · simp only [Bool.not_eq_true] at hnm
            simp only [hnm, Bool.false_eq_true, if_false]
        | arr l =>
          by_cases hnm : truthyO (jsGet (Json.arr l) "name") = true
          · simp only [hnm, if_true]
          · simp only [Bool.not_eq_true] at hnm
            simp only [hnm, Bool.false_eq_true, if_false]
        | obj fs =>
          by_cases hnm : truthyO (jsGet (Json.obj fs) "name") = true
          · simp only [hnm, if_true]
          · simp only [Bool.not_eq_true] at hnm
            simp only [hnm, Bool.false_eq_true, if_false]

/-- C5 amended: author extraction scans the assertions in order and
returns the name of the first CreativeWork assertion whose author list is
non-empty *and* whose first author entry carries a truthy name;
assertions failing any of these conditions (including a first entry
without a name) are skipped and the scan continues; null when no
assertion qualifies.  On the claim's example the empty-author-list
assertion is skipped and the result is "Jane Doe". -/
theorem c5_author_amended :
    (∀ (a : Json) (rest : List Json),
        extractAuthor (a :: rest)
          = if notNull a then
              match authorStep a with
              | .error e => .error e
              | .ok (some n) => .ok (some n)
              | .ok none => extractAuthor rest
            else .error ())
  ∧ extractAuthor [] = .ok none
  ∧ extractAuthor [c5EmptyAuthors, c5JaneDoe] = .ok (some "Jane Doe") := by
  refine ⟨fun a rest => ?_, rfl, rfl⟩
  cases hn : notNull a with
  | false =>
    simp only [hn, Bool.false_eq_true, if_false]
    cases a with
    | null => rfl
    | bool b => simp [notNull] at hn
    | num n => simp [notNull] at hn
    | str s => simp [notNull] at hn
    | arr l => simp [notNull] at hn
    | obj fs => simp [notNull] at hn
  | true =>
    simp only [hn, if_true]
    exact extractAuthor_cons_eq a rest hn

end Verify

namespace Verify

/-- Modelled from the claim's wording, for comparison with the code:
split the claim-generator string on *whitespace*, take the first token,
replace underscores and slashes with spaces. -/
def appNameSpec (s : String) : String :=
  String.mk (((s.data.takeWhile fun c => !c.isWhitespace).map
      fun c => if c = '_' then ' ' else c).map
    fun c => if c = '/' then ' ' else c)

/-- Counterexample to C8 as stated: the code splits on the space
character only (`split(' ')`), not on whitespace; on a claim generator
containing a tab, the first space-delimited token retains the tab while
the claimed whitespace-splitting keeps only "a". -/
theorem c8_counterexample :
    appNameOf "a\tb c" = "a\tb"
  ∧ appNameSpec "a\tb c" = "a"
  ∧ appNameOf "a\tb c" ≠ appNameSpec "a\tb c" := by
  refine ⟨rfl, rfl, by decide⟩

/-- The store used by the C8 statement: a valid active manifest whose
only field is the given claim generator. -/
def c8Store (s : String) : Json :=
  .obj [("active_manifest", .str "m"),
        ("manifests", .obj [("m", .obj [("claim_generator", .str s)])])]

/-- What the C8 store displays: a process section whose app name is the
transform of the claim generator. -/
def c8Details (s : String) : Details :=
  { signer := none, content := none,
    process := some { appName := some (appNameOf s), actions := [] },
    ingredients := none, manifestCount := 1, assertionCount := 0,
    ingredientCount := 0, validation := [] }

/-- C8 amended: for every non-empty claim-generator string, the displayed
app name is obtained by taking the prefix before the first *space
character* (`split(' ')[0]`) and replacing underscores and forward
slashes with spaces, with no further normalization. -/
theorem c8_appname_amended (f : String → String) (s : String) (h : s ≠ "") :
    createCredentialDetails f (c8Store s) = .ok (.details (c8Details s))
  ∧ appNameOf s
      = String.mk (((s.data.takeWhile fun c => c ≠ ' ').map
          fun c => if c = '_' then ' ' else c).map
        fun c => if c = '/' then ' ' else c) := by
  refine ⟨?_, rfl⟩
  have hs : truthy (.str s) = true := by simp [truthy, h]
  have ham : resolveActiveManifest (c8Store s)
      = some (.obj [("claim_generator", .str s)]) := by
    rw [resolveActiveManifest]
    rw [if_pos (by rfl)]
    rfl
  have hcg : computeClaimGenerator (.obj [("claim_generator", .str s)]) = some s := by
    rw [computeClaimGenerator]
    have hj : jsOr (jsGet (.obj [("claim_generator", .str s)]) "claim_generator")
        (jsGet (.obj [("claim_generator", .str s)]) "claimGenerator") = some (.str s) := by
      show jsOr (some (.str s)) none = some (.str s)
      rw [jsOr_none_right]
      simp [truthyO, hs]
    rw [hj, if_pos (show truthyO (some (.str s)) = true by simp [truthyO, hs])]
    rfl
  have hbd : buildDetails f (c8Store s) (.obj [("claim_generator", .str s)])
      = .ok (c8Details s) := by
    rw [buildDetails]
    rw [show resolveValidation (c8Store s) = none from rfl]
    rw [show filterValidation none = .ok [] from rfl]
    simp only [except_ok_bind]
    rw [hcg]
    have happ : (if s = "" then some s else some (appNameOf s)) = some (appNameOf s) := by
      rw [if_neg h]
    have hpt : strTruthy (some s) = true := by simp [strTruthy, h]
    simp only [happ, hpt, Bool.true_or, if_true]
    rfl
  rw [createCredentialDetails]
  simp only [show notNull (c8Store s) = true from rfl, if_true, ham]
  rw [show truthy (.obj [("claim_generator", .str s)]) = true from rfl]
  simp only [if_true]
  rw [hbd]
  rfl

/-- Witness for the amended C8 statement on a concrete claim generator. -/
theorem c8_witness :
    ("Adobe_Photoshop/22.0 (Windows)" : String) ≠ ""
  ∧ (createCredentialDetails id (c8Store "Adobe_Photoshop/22.0 (Windows)")
        = .ok (.details (c8Details "Adobe_Photoshop/22.0 (Windows)"))
      ∧ appNameOf "Adobe_Photoshop/22.0 (Windows)"
          = String.mk ((("Adobe_Photoshop/22.0 (Windows)".data.takeWhile
                fun c => c ≠ ' ').map fun c => if c = '_' then ' ' else c).map
              fun c => if c = '/' then ' ' else c))
  ∧ appNameOf "Adobe_Photoshop/22.0 (Windows)" = "Adobe Photoshop 22.0" := by
  refine ⟨by decide, c8_appname_amended id _ (by decide), rfl⟩

end Verify

namespace Verify

/-! ### Loose conformance (claim about never throwing)

`looselyConforms` renders the spec's "input conforming loosely to the
data model": the fields used as sequences are arrays (or absent/falsy),
their elements are not `null`, and an `author` field of the wrong shape
is allowed whenever the code tolerates it (it is treated as absent). -/

/-- Shapes of `data.author` on which the author scan cannot throw: any
value whose length test fails (including non-lists, which the code
treats as absent), or an array whose head is not `null`. -/
def authorFieldOk : Option Json → Bool
  | some (.arr (x :: _)) => notNull x
  | some (.obj fs) => !jsGtZero (List.lookup "length" fs)
  | _ => true

/-- Shapes of `data.actions` on which the action loop cannot throw:
absent/falsy, or an array of non-`null` entries. -/
def actionsFieldOk : Option Json → Bool
  | some (.arr xs) => xs.all notNull
  | some j => !truthy j
  | none => true

/-- A loosely conforming assertion. -/
def assertionOk (a : Json) : Bool :=
  notNull a && authorFieldOk (jsGetO (jsGet a "data") "author")
    && actionsFieldOk (jsGetO (jsGet a "data") "actions")

/-- A loosely conforming `assertions` field. -/
def assertionsFieldOk : Option Json → Bool
  | some (.arr xs) => xs.all assertionOk
  | some j => !truthy j
  | none => true

/-- A loosely conforming `ingredients` field: an array of non-`null`
rows, or anything whose truthiness/length guard fails (which the code
treats as absent). -/
def ingredientsFieldOk : Option Json → Bool
  | some (.arr xs) => xs.all notNull
  | some j => !(truthy j && jsLenGtZero (some j))
  | none => true

/-- A loosely conforming resolved validation status: absent, `null`, or
an array of non-`null` entries. -/
def validationFieldOk : Option Json → Bool
  | some (.arr xs) => xs.all notNull
  | some .null => true
  | some _ => false
  | none => true

/-- A loosely conforming active manifest. -/
def manifestOk (am : Json) : Bool :=
  assertionsFieldOk (jsGet am "assertions") && ingredientsFieldOk (jsGet am "ingredients")

/-- A loosely conforming manifest store. -/
def looselyConforms (store : Json) : Bool :=
  notNull store && validationFieldOk (resolveValidation store) &&
  (match resolveActiveManifest store with
   | some am => !truthy am || manifestOk am
   | none => true)

theorem filterValidation_ok (v : Option Json) (h : validationFieldOk v = true) :
    ∃ l, filterValidation v = .ok l := by
  match v with
  | none => exact ⟨[], rfl⟩
  | some .null => exact ⟨[], rfl⟩
  | some (.arr xs) =>
    refine ⟨xs.filter isIssue, ?_⟩
    show filterIssueList xs = _
    exact filterIssueList_eq_filter xs (by simpa [validationFieldOk, List.all_eq_true] using h)
  | some (.bool b) => simp [validationFieldOk] at h
  | some (.num n) => simp [validationFieldOk] at h
  | some (.str s) => simp [validationFieldOk] at h
  | some (.obj fs) => simp [validationFieldOk] at h

theorem author0_of_ok (author : Option Json)
    (hok : authorFieldOk author = true)
    (ht : (truthyO author && jsLenGtZero author) = true) :
    ∃ fa, jsGetO author "0" = some fa ∧ notNull fa = true := by
  match author with
  | none => simp [truthyO] at ht
  | some .null => simp [truthyO, truthy] at ht
  | some (.bool b) => simp [jsLenGtZero, jsGetO, jsGet, jsGtZero] at ht
  | some (.num n) => simp [jsLenGtZero, jsGetO, jsGet, jsGtZero] at ht
  | some (.str s) =>
    simp only [Bool.and_eq_true] at ht
    have h2 := ht.2
    simp only [jsLenGtZero, jsGetO, jsGet, if_pos rfl, jsGtZero] at h2
    match hd : s.data with
    | [] =>
      rw [hd] at h2
      simp at h2
    | c :: cs =>
      refine ⟨.str (String.mk [c]), ?_, rfl⟩
      show jsGet (.str s) "0" = _
      simp [jsGet, decDigits?, hd]
  | some (.arr xs) =>
    match xs with
    | [] =>
      simp only [Bool.and_eq_true] at ht
      have h2 := ht.2
      simp [jsLenGtZero, jsGetO, jsGet, jsGtZero] at h2
    | x :: rest =>
      refine ⟨x, ?_, by simpa [authorFieldOk] using hok⟩
      show jsGet (.arr (x :: rest)) "0" = some x
      simp [jsGet, decDigits?]
  | some (.obj fs) =>
    simp only [Bool.and_eq_true] at ht
    have h2 := ht.2
    simp only [jsLenGtZero, jsGetO, jsGet] at h2
    have hok2 : jsGtZero (List.lookup "length" fs) = false := by
      simpa [authorFieldOk] using hok
    rw [hok2] at h2
    exact absurd h2 (by simp)

end Verify

namespace Verify

theorem authorStep_ok (a : Json)
    (hau : authorFieldOk (jsGetO (jsGet a "data") "author") = true) :
    ∃ o, authorStep a = .ok o := by
  rw [authorStep]
  by_cases hl : labelMatches a "stds.schema-org.CreativeWork" = true
  case neg =>
    simp only [Bool.not_eq_true] at hl
    simp only [hl, Bool.false_eq_true, if_false]
    exact ⟨none, rfl⟩
  case pos =>
    simp only [hl, if_true]
    by_cases hlen : (truthyO (jsGetO (jsGet a "data") "author")
        && jsLenGtZero (jsGetO (jsGet a "data") "author")) = true
    case neg =>
      simp only [Bool.not_eq_true] at hlen
      simp only [hlen, Bool.false_eq_true, if_false]
      exact ⟨none, rfl⟩
    case pos =>
      simp only [hlen, if_true]
      obtain ⟨fa, hfa, hfann⟩ := author0_of_ok _ hau hlen
      rw [hfa]
      have harm : ∀ (j : Json), notNull j = true →
          (match some j with
           | none => (.error () : Except Unit (Option String))
           | some .null => .error ()
           | some firstAuthor =>
             if truthyO (jsGet firstAuthor "name") then
               .ok (some (jsToStringO (jsGet firstAuthor "name")))
             else .ok none)
          = if truthyO (jsGet j "name") then
              .ok (some (jsToStringO (jsGet j "name")))
            else .ok none := by
        intro j hj
        cases j <;> first | rfl | simp [notNull] at hj
      rw [harm fa hfann]
      by_cases hn : truthyO (jsGet fa "name") = true
      · exact ⟨some (jsToStringO (jsGet fa "name")), by simp [hn]⟩
      · simp only [Bool.not_eq_true] at hn
        exact ⟨none, by simp [hn]⟩

theorem extractAuthor_ok (xs : List Json) (h : xs.all assertionOk = true) :
    ∃ r, extractAuthor xs = .ok r := by
  induction xs with
  | nil => exact ⟨none, rfl⟩
  | cons a rest ih =>
    simp only [List.all_cons, Bool.and_eq_true] at h
    obtain ⟨r, hr⟩ := ih h.2
    have ha := h.1
    simp only [assertionOk, Bool.and_eq_true] at ha
    obtain ⟨o, ho⟩ := authorStep_ok a ha.1.2
    rw [extractAuthor_cons_eq a rest ha.1.1, ho]
    cases o with
    | some n => exact ⟨some n, rfl⟩
    | none => exact ⟨r, hr⟩

theorem collect_cons (a : Json) (rest : List Json) (ha : notNull a = true) :
    collectActionStrings (a :: rest)
      = (do
          let r ← collectActionStrings rest
          if truthyO (jsGet a "action") then
            .ok (jsToStringO (jsGet a "action") :: r)
          else .ok r) := by
  cases a <;> first | rfl | simp [notNull] at ha

theorem collectActionStrings_ok (xs : List Json) (h : xs.all notNull = true) :
    ∃ l, collectActionStrings xs = .ok l := by
  induction xs with
  | nil => exact ⟨[], rfl⟩
  | cons a rest ih =>
    simp only [List.all_cons, Bool.and_eq_true] at h
    obtain ⟨l, hl⟩ := ih h.2
    rw [collect_cons a rest h.1, hl]
    by_cases hn : truthyO (jsGet a "action") = true
    · exact ⟨jsToStringO (jsGet a "action") :: l, by simp [hn]⟩
    · simp only [Bool.not_eq_true] at hn
      exact ⟨l, by simp [hn]⟩

theorem extractActions_ok (xs : List Json) (h : xs.all assertionOk = true) :
    ∃ r, extractActions xs = .ok r := by
  induction xs with
  | nil => exact ⟨[], rfl⟩
  | cons a rest ih =>
    simp only [List.all_cons, Bool.and_eq_true] at h
    obtain ⟨r, hr⟩ := ih h.2
    have ha := h.1
    simp only [assertionOk, Bool.and_eq_true] at ha
    have hact := ha.2
    rw [extractActions_cons a rest ha.1.1]
    by_cases hl : labelMatches a "c2pa.actions" = true
    case neg =>
      simp only [Bool.not_eq_true] at hl
      simp only [hl, Bool.false_eq_true, if_false]
      exact ⟨r, hr⟩
    case pos =>
      simp only [hl, if_true]
      cases htr : truthyO (jsGetO (jsGet a "data") "actions") with
      | false =>
        simp only [Bool.false_eq_true, if_false]
        exact ⟨r, hr⟩
      | true =>
        simp only [if_true]
        cases hal : jsGetO (jsGet a "data") "actions" with
        | none => rw [hal] at htr; simp [truthyO] at htr
        | some v =>
          cases v with
          | arr ys =>
            have hys : ys.all notNull = true := by
              rw [hal] at hact
              simpa [actionsFieldOk] using hact
            obtain ⟨l, hlc⟩ := collectActionStrings_ok ys hys
            exact ⟨l ++ r, by simp [hlc, hr]⟩
          | null =>
            rw [hal] at htr
            simp [truthyO, truthy] at htr
          | bool b =>
            rw [hal] at htr hact
            simp only [truthyO] at htr
            simp [actionsFieldOk, htr] at hact
          | num n =>
            rw [hal] at htr hact
            simp only [truthyO] at htr
            simp [actionsFieldOk, htr] at hact
          | str s =>
            rw [hal] at htr hact
            simp only [truthyO] at htr
            simp [actionsFieldOk, htr] at hact
          | obj gs =>
            rw [hal] at htr hact
            simp only [truthyO] at htr
            simp [actionsFieldOk, htr] at hact

theorem mkIngredientViews_cons (ing : Json) (rest : List Json) (idx : Nat)
    (h : notNull ing = true) :
    mkIngredientViews (ing :: rest) idx
      = (do
          let r ← mkIngredientViews rest (idx + 1)
          .ok ({ title :=
                   if truthyO (jsGet ing "title") then jsToStringO (jsGet ing "title")
                   else "Ingredient " ++ toString (idx + 1),
                 format :=
                   if truthyO (jsGet ing "format") then jsToStringO (jsGet ing "format")
                   else "" } :: r)) := by
  cases ing <;> first | rfl | simp [notNull] at h

theorem mkIngredientViews_ok (xs : List Json) (h : xs.all notNull = true) :
    ∀ idx, ∃ l, mkIngredientViews xs idx = .ok l := by
  induction xs with
  | nil => exact fun idx => ⟨[], rfl⟩
  | cons a rest ih =>
    intro idx
    simp only [List.all_cons, Bool.and_eq_true] at h
    obtain ⟨l, hl⟩ := ih h.2 (idx + 1)
    exact ⟨_, by rw [mkIngredientViews_cons a rest idx h.1, hl]; rfl⟩

theorem computeAuthor_ok (assertions : Option Json)
    (h : assertionsFieldOk assertions = true) :
    ∃ au, computeAuthor assertions = .ok au := by
  match assertions with
  | none => exact ⟨none, rfl⟩
  | some (.arr xs) =>
    exact extractAuthor_ok xs (by simpa [assertionsFieldOk] using h)
  | some .null => exact ⟨none, rfl⟩
  | some (.bool b) =>
    have hb : truthy (.bool b) = false := by simpa [assertionsFieldOk] using h
    exact ⟨none, by simp [computeAuthor, hb]⟩
  | some (.num n) =>
    have hb : truthy (.num n) = false := by simpa [assertionsFieldOk] using h
    exact ⟨none, by simp [computeAuthor, hb]⟩
  | some (.str s) =>
    have hb : truthy (.str s) = false := by simpa [assertionsFieldOk] using h
    exact ⟨none, by simp [computeAuthor, hb]⟩
  | some (.obj fs) =>
    have hb : truthy (.obj fs) = false := by simpa [assertionsFieldOk] using h
    exact ⟨none, by simp [computeAuthor, hb]⟩

theorem computeActions_ok (assertions : Option Json)
    (h : assertionsFieldOk assertions = true) :
    ∃ acts, computeActions assertions = .ok acts := by
  match assertions with
  | none => exact ⟨[], rfl⟩
  | some (.arr xs) =>
    exact extractActions_ok xs (by simpa [assertionsFieldOk] using h)
  | some .null => exact ⟨[], rfl⟩
  | some (.bool b) =>
    have hb : truthy (.bool b) = false := by simpa [assertionsFieldOk] using h
    exact ⟨[], by simp [computeActions, hb]⟩
  | some (.num n) =>
    have hb : truthy (.num n) = false := by simpa [assertionsFieldOk] using h
    exact ⟨[], by simp [computeActions, hb]⟩
  | some (.str s) =>
    have hb : truthy (.str s) = false := by simpa [assertionsFieldOk] using h
    exact ⟨[], by simp [computeActions, hb]⟩
  | some (.obj fs) =>
    have hb : truthy (.obj fs) = false := by simpa [assertionsFieldOk] using h
    exact ⟨[], by simp [computeActions, hb]⟩

theorem computeIngredients_ok (ingredients : Option Json)
    (h : ingredientsFieldOk ingredients = true) :
    ∃ sec, computeIngredients ingredients = .ok sec := by
  rw [computeIngredients.eq_def]
  by_cases hc : (truthyO ingredients && jsLenGtZero ingredients) = true
  case neg =>
    simp only [Bool.not_eq_true] at hc
    simp only [hc, Bool.false_eq_true, if_false]
    exact ⟨none, rfl⟩
  case pos =>
    simp only [hc, if_true]
    cases ingredients with
    | none => simp [truthyO] at hc
    | some j =>
      cases j with
      | arr xs =>
        obtain ⟨l, hl⟩ := mkIngredientViews_ok xs (by simpa [ingredientsFieldOk] using h) 0
        refine ⟨some l, ?_⟩
        show (do
          let vs ← mkIngredientViews xs 0
          pure (some vs) : Except Unit (Option (List IngredientView))) = .ok (some l)
        rw [hl]
        rfl
      | null => simp [truthyO, truthy] at hc
      | bool b =>
        simp only [Bool.and_eq_true, truthyO] at hc
        have hfalse : ingredientsFieldOk (some (.bool b)) = false := by
          simp [ingredientsFieldOk, hc.1, hc.2]
        rw [hfalse] at h
        exact absurd h (by simp)
      | num n =>
        simp only [Bool.and_eq_true, truthyO] at hc
        have hfalse : ingredientsFieldOk (some (.num n)) = false := by
          simp [ingredientsFieldOk, hc.1, hc.2]
        rw [hfalse] at h
        exact absurd h (by simp)
      | str s =>
        simp only [Bool.and_eq_true, truthyO] at hc
        have hfalse : ingredientsFieldOk (some (.str s)) = false := by
          simp [ingredientsFieldOk, hc.1, hc.2]
        rw [hfalse] at h
        exact absurd h (by simp)
      | obj fs =>
        simp only [Bool.and_eq_true, truthyO] at hc
        have hfalse : ingredientsFieldOk (some (.obj fs)) = false := by
          simp [ingredientsFieldOk, hc.1, hc.2]
        rw [hfalse] at h
        exact absurd h (by simp)

theorem buildDetails_ok (f : String → String) (store am : Json)
    (hval : validationFieldOk (resolveValidation store) = true)
    (hman : manifestOk am = true) :
    ∃ d, buildDetails f store am = .ok d := by
  simp only [manifestOk, Bool.and_eq_true] at hman
  obtain ⟨vl, hvl⟩ := filterValidation_ok _ hval
  obtain ⟨au, hau⟩ := computeAuthor_ok _ hman.1
  obtain ⟨acts, hacts⟩ := computeActions_ok _ hman.1
  obtain ⟨sec, hsec⟩ := computeIngredients_ok _ hman.2
  cases hb : buildDetails f store am with
  | ok d => exact ⟨d, rfl⟩
  | error e =>
    cases e
    rw [buildDetails, hvl, hau, hacts, hsec] at hb
    simp at hb

/-- C7: the transformation never throws on any input loosely conforming
to the data model — arrays (or absent/falsy values) in the sequence
positions, non-`null` entries, and malformed optional fields such as a
non-list `data.author` tolerated by treating them as absent — and it is
total on every such store, including the absent-active-manifest case. -/
theorem c7_never_throws (f : String → String) (store : Json)
    (h : looselyConforms store = true) :
    ∃ out, createCredentialDetails f store = .ok out := by
  simp only [looselyConforms, Bool.and_eq_true] at h
  obtain ⟨⟨hnn, hval⟩, hman⟩ := h
  rw [createCredentialDetails, hnn]
  simp only [if_true]
  cases hram : resolveActiveManifest store with
  | none => exact ⟨.noDetails, rfl⟩
  | some am =>
    cases htr : truthy am with
    | false =>
      simp only [htr, Bool.false_eq_true, if_false]
      exact ⟨.noDetails, rfl⟩
    | true =>
      simp only [htr, if_true]
      rw [hram] at hman
      have hmok : manifestOk am = true := by
        simpa [htr] using hman
      obtain ⟨d, hd⟩ := buildDetails_ok f store am hval hmok
      exact ⟨.details d, by rw [hd]; rfl⟩

/-- The witness store for C7: a valid active manifest whose CreativeWork
assertion carries a malformed (non-list) `data.author`, no signature
info, and no ingredients. -/
def c7Store : Json :=
  .obj [("active_manifest", .str "m"),
        ("manifests", .obj [("m", .obj [("assertions", .arr
          [.obj [("label", .str "stds.schema-org.CreativeWork"),
                 ("data", .obj [("author", .num 5)])]])])])]

/-- Witness for C7 at the concrete conformant store. -/
theorem c7_witness :
    looselyConforms c7Store = true
  ∧ ∃ out, createCredentialDetails id c7Store = .ok out :=
  ⟨by decide, c7_never_throws id c7Store (by decide)⟩

end Verify

namespace Verify

/-! ### JSON syntax highlighting
(src/unnamed/part_000 `syntaxHighlight` lines 124-143 and the identical
src/src/main.ts lines 56-75)

The regex
`("(\\u[a-zA-Z0-9]{4}|\\[^u]|[^\\"])*"(\s*:)?|\b(true|false|null)\b|-?\d+(?:\.\d*)?(?:[eE][+\-]?\d+)?)/g`
is re-implemented as a left-to-right scanner: at each position the three
alternatives are tried in order (string with optional `\s*:` suffix,
word-bounded literal, number); on a match the matched text is wrapped in
a span with the class the callback assigns, otherwise one character is
copied verbatim.  For the patterns of this regex, a position matches in
at most one way, so the hand-rolled matchers below are exact. -/

/-- The regex class `\s` (ASCII whitespace of JSON serializations). -/
def jsWsC (c : Char) : Bool :=
  c = ' ' || c = '\t' || c = '\n' || c = '\r'

/-- The regex class `[a-zA-Z0-9]` of the `\u` escape. -/
def alnumC (c : Char) : Bool :=
  isLowerAZ c || isUpperAZ c || ('0' ≤ c && c ≤ '9')

/-- The regex class `\d`. -/
def digitC (c : Char) : Bool := '0' ≤ c && c ≤ '9'

/-- The string-body loop `(\\u[a-zA-Z0-9]{4}|\\[^u]|[^\\"])*"`: consumes
up to and including the closing unescaped quote.  For this pattern the
greedy star is deterministic, so failures are final (no backtracking). -/
def matchStrBody : List Char → Option (List Char × List Char)
  | [] => none
  | c :: r =>
    if c = '"' then some (['"'], r)
    else if c = '\\' then
      match r with
      | [] => none
      | c2 :: r2 =>
        if c2 = 'u' then
          match r2 with
          | a :: b :: c3 :: d :: r3 =>
            if alnumC a && alnumC b && alnumC c3 && alnumC d then
              (matchStrBody r3).map fun p => ('\\' :: 'u' :: a :: b :: c3 :: d :: p.1, p.2)
            else none
          | _ => none
        else (matchStrBody r2).map fun p => ('\\' :: c2 :: p.1, p.2)
    else (matchStrBody r).map fun p => (c :: p.1, p.2)

/-- The first regex alternative `"..."(\s*:)?`: a string, absorbing a
following `\s*:` (making it a key) when present. -/
def matchString : List Char → Option (List Char × List Char)
  | [] => none
  | c :: r =>
    if c = '"' then
      match matchStrBody r with
      | some (body, rest) =>
        if (rest.dropWhile jsWsC).head? = some ':' then
          some ('"' :: body ++ rest.takeWhile jsWsC ++ [':'], (rest.dropWhile jsWsC).tail)
        else some ('"' :: body, rest)
      | none => none
    else none

/-- The word boundary `\b` before a literal: start of input or a
non-word previous character. -/
def boundaryBefore : Option Char → Bool
  | none => true
  | some c => !isWordChar c

/-- The word boundary `\b` after a literal. -/
def boundaryAfter : List Char → Bool
  | [] => true
  | c :: _ => !isWordChar c

/-- One keyword of `\b(true|false|null)\b`. -/
def matchLit1 (prev : Option Char) (w : List Char) (cs : List Char) :
    Option (List Char × List Char) :=
  if w.isPrefixOf cs then
    if boundaryBefore prev && boundaryAfter (cs.drop w.length) then
      some (w, cs.drop w.length)
    else none
  else none

/-- The second regex alternative `\b(true|false|null)\b`. -/
def matchLiteral (prev : Option Char) (cs : List Char) :
    Option (List Char × List Char) :=
  match matchLit1 prev "true".data cs with
  | some p => some p
  | none =>
    match matchLit1 prev "false".data cs with
    | some p => some p
    | none => matchLit1 prev "null".data cs

/-- The optional exponent `(?:[eE][+\-]?\d+)?`: consumed only when at
least one digit follows, otherwise left in place. -/
def matchExp (cs : List Char) : List Char × List Char :=
  match cs with
  | [] => ([], [])
  | e :: r =>
    if e = 'e' || e = 'E' then
      if r.head? = some '+' || r.head? = some '-' then
        if (r.tail.takeWhile digitC).isEmpty then ([], e :: r)
        else (e :: (r.head?.getD '+') :: r.tail.takeWhile digitC, r.tail.dropWhile digitC)
      else
        if (r.takeWhile digitC).isEmpty then ([], e :: r)
        else (e :: r.takeWhile digitC, r.dropWhile digitC)
    else ([], e :: r)

/-- The third regex alternative `-?\d+(?:\.\d*)?(?:[eE][+\-]?\d+)?`. -/
def matchNumber (cs : List Char) : Option (List Char × List Char) :=
  let sign : List Char := if cs.head? = some '-' then ['-'] else []
  let cs1 := if cs.head? = some '-' then cs.tail else cs
  let ds := cs1.takeWhile digitC
  let cs2 := cs1.dropWhile digitC
  if ds.isEmpty then none
  else
    let frac : List Char :=
      if cs2.head? = some '.' then '.' :: cs2.tail.takeWhile digitC else []
    let cs3 := if cs2.head? = some '.' then cs2.tail.dropWhile digitC else cs2
    let (ex, cs4) := matchExp cs3
    some (sign ++ ds ++ frac ++ ex, cs4)

/-- Substring containment, for the `/true|false/.test` and
`/null/.test` classification checks. -/
def containsSeq (p : List Char) : List Char → Bool
  | [] => p.isPrefixOf []
  | c :: r => p.isPrefixOf (c :: r) || containsSeq p r

/-- The classification callback of `syntaxHighlight`: key/string for a
leading quote (key iff a trailing colon), else boolean if the match
contains `true` or `false`, else null if it contains `null`, else
number. -/
def classify (t : List Char) : String :=
  if t.head? = some '"' then
    if t.getLast? = some ':' then "json-key" else "json-string"
  else if containsSeq "true".data t || containsSeq "false".data t then "json-boolean"
  else if containsSeq "null".data t then "json-null"
  else "json-number"

/-- The regex alternation: the three alternatives tried in order. -/
def matchTok (prev : Option Char) (cs : List Char) :
    Option (List Char × String × List Char) :=
  match matchString cs with
  | some (t, r) => some (t, classify t, r)
  | none =>
    match matchLiteral prev cs with
    | some (t, r) => some (t, classify t, r)
    | none =>
      match matchNumber cs with
      | some (t, r) => some (t, classify t, r)
      | none => none

/-- The replacement `<span class="${cls}">${match}</span>`. -/
def wrapSpan (cls : String) (t : List Char) : List Char :=
  "<span class=\"".data ++ cls.data ++ "\">".data ++ t ++ "</span>".data

/-- The scan of `String.prototype.replace` with a global regex: try the
pattern at each position, wrap matches, copy non-matching characters.
`prev` is the character before the current position (for `\b`).  The
fuel equals the remaining length at the top-level call; since every
match of this regex is non-empty the fuel never runs out, and the
fuel-exhausted branch (returning the remainder unchanged) is
unreachable — it only keeps the definition total without a separate
termination argument. -/
def scanJson : Nat → Option Char → List Char → List Char
  | 0, _, cs => cs
  | fuel + 1, prev, cs =>
    match cs with
    | [] => []
    | c :: rest =>
      match matchTok prev (c :: rest) with
      | some (t, cls, r) => wrapSpan cls t ++ scanJson fuel t.getLast? r
      | none => c :: scanJson fuel (some c) rest

/-- Translation of `syntaxHighlight`. -/
def syntaxHighlight (json : String) : String :=
  String.mk (scanJson json.data.length none json.data)

end Verify

namespace Verify

/-! ### Serialized-JSON token sequences

A serialized JSON text is an alternation of separators (whitespace,
braces, brackets, commas) and lexical tokens (strings, keys, boolean
literals, null literals, numbers).  `Seg` describes one such segment;
`segsOk` is the well-formedness of a sequence (separators non-empty and
made of separator characters, string bodies with well-formed escapes,
numbers of the regex shape, and every non-key token followed by a
separator or the end — keys may be followed directly by a value, as in
compact JSON). -/

/-- One item of a string body: a plain character, a short escape, or a
`\uXXXX` escape. -/
inductive SItem where
  | plain : Char → SItem
  | esc : Char → SItem
  | uesc : Char → Char → Char → Char → SItem
  deriving DecidableEq, Repr

/-- Characters produced by one string-body item. -/
def SItem.render : SItem → List Char
  | .plain c => [c]
  | .esc c => ['\\', c]
  | .uesc a b c d => ['\\', 'u', a, b, c, d]

/-- Well-formed string-body item, matching the three alternatives of the
string-body regex. -/
def SItem.ok : SItem → Bool
  | .plain c => !(c = '"') && !(c = '\\')
  | .esc c => !(c = 'u')
  | .uesc a b c d => alnumC a && alnumC b && alnumC c && alnumC d

/-- Characters of a string body. -/
def renderBody : List SItem → List Char
  | [] => []
  | i :: r => i.render ++ renderBody r

/-- The shape of a number token. -/
structure NumShape where
  neg : Bool
  ds : List Char
  frac : Option (List Char)
  exS : Option (Char × List Char × List Char)
  deriving DecidableEq, Repr

/-- Characters of a number token. -/
def NumShape.render (n : NumShape) : List Char :=
  (if n.neg then ['-'] else []) ++ n.ds
    ++ (match n.frac with | some f => '.' :: f | none => [])
    ++ (match n.exS with | some (e, sg, xs) => e :: (sg ++ xs) | none => [])

/-- Well-formed number: non-empty digits, digit fraction, exponent with
`e`/`E`, an optional single sign, and non-empty digits. -/
def NumShape.ok (n : NumShape) : Bool :=
  !n.ds.isEmpty && n.ds.all digitC
  && (match n.frac with | some f => f.all digitC | none => true)
  && (match n.exS with
      | some (e, sg, xs) =>
        (e = 'e' || e = 'E') && (sg.isEmpty || sg = ['+'] || sg = ['-'])
          && !xs.isEmpty && xs.all digitC
      | none => true)

/-- One segment of a serialized JSON text. -/
inductive Seg where
  | sep : List Char → Seg
  | strTok : List SItem → Seg
  | keyTok : List SItem → List Char → Seg
  | boolTok : Bool → Seg
  | nullTok : Seg
  | numTok : NumShape → Seg
  deriving DecidableEq, Repr

/-- Separator characters: whitespace, braces, brackets, commas. -/
def sepC (c : Char) : Bool :=
  c = ' ' || c = '\t' || c = '\n' || c = '\r'
    || c = '\x7b' || c = '\x7d' || c = '[' || c = ']' || c = ','

/-- Characters of one segment (`keyTok body ws` renders as the string,
the whitespace, and the colon that the regex absorbs into a key). -/
def Seg.render : Seg → List Char
  | .sep s => s
  | .strTok body => '"' :: renderBody body ++ ['"']
  | .keyTok body ws => '"' :: renderBody body ++ ['"'] ++ ws ++ [':']
  | .boolTok b => if b then "true".data else "false".data
  | .nullTok => "null".data
  | .numTok n => n.render

/-- Characters of a segment sequence. -/
def renderSegs : List Seg → List Char
  | [] => []
  | s :: r => s.render ++ renderSegs r

/-- The expected highlighting of one segment: tokens wrapped in a span
carrying their lexical class, separators untouched. -/
def Seg.highlighted : Seg → List Char
  | .sep s => s
  | .strTok body => wrapSpan "json-string" ('"' :: renderBody body ++ ['"'])
  | .keyTok body ws => wrapSpan "json-key" ('"' :: renderBody body ++ ['"'] ++ ws ++ [':'])
  | .boolTok b => wrapSpan "json-boolean" (if b then "true".data else "false".data)
  | .nullTok => wrapSpan "json-null" "null".data
  | .numTok n => wrapSpan "json-number" n.render

/-- The expected highlighting of a segment sequence. -/
def highlightSegs : List Seg → List Char
  | [] => []
  | s :: r => s.highlighted ++ highlightSegs r

/-- Well-formedness of a single segment. -/
def Seg.ok : Seg → Bool
  | .sep s => !s.isEmpty && s.all sepC
  | .strTok body => body.all SItem.ok
  | .keyTok body ws => body.all SItem.ok && ws.all jsWsC
  | .boolTok _ => true
  | .nullTok => true
  | .numTok n => n.ok

/-- Whether a sequence starts with a separator or is empty. -/
def headSepOrEnd : List Seg → Bool
  | [] => true
  | .sep _ :: _ => true
  | _ => false

/-- Sequencing constraint after one segment: every non-key token must be
followed by a separator or the end. -/
def followOk : Seg → List Seg → Bool
  | .strTok _, rest => headSepOrEnd rest
  | .boolTok _, rest => headSepOrEnd rest
  | .nullTok, rest => headSepOrEnd rest
  | .numTok _, rest => headSepOrEnd rest
  | _, _ => true

/-- Well-formed segment sequence. -/
def segsOk : List Seg → Bool
  | [] => true
  | s :: rest => s.ok && followOk s rest && segsOk rest

/-- Invariant on the previous character: when the next segment is a
keyword literal, the scan position must sit at a word boundary. -/
def prevOk (prev : Option Char) (segs : List Seg) : Prop :=
  match segs with
  | .boolTok _ :: _ => boundaryBefore prev = true
  | .nullTok :: _ => boundaryBefore prev = true
  | _ => True

end Verify

namespace Verify

/-! ### Helper lemmas for the highlighter proof -/

theorem takeWhile_append_of_all {p : Char → Bool} (ws l : List Char)
    (h : ws.all p = true) : (ws ++ l).takeWhile p = ws ++ l.takeWhile p := by
  induction ws with
  | nil => rfl
  | cons c w ih =>
    simp only [List.all_cons, Bool.and_eq_true] at h
    simp [List.takeWhile, h.1, ih h.2]

theorem dropWhile_append_of_all {p : Char → Bool} (ws l : List Char)
    (h : ws.all p = true) : (ws ++ l).dropWhile p = l.dropWhile p := by
  induction ws with
  | nil => rfl
  | cons c w ih =>
    simp only [List.all_cons, Bool.and_eq_true] at h
    simp [List.dropWhile, h.1, ih h.2]

theorem takeWhile_cons_false {p : Char → Bool} (c : Char) (l : List Char)
    (h : p c = false) : (c :: l).takeWhile p = [] := by
  simp [List.takeWhile, h]

theorem dropWhile_cons_false {p : Char → Bool} (c : Char) (l : List Char)
    (h : p c = false) : (c :: l).dropWhile p = c :: l := by
  simp [List.dropWhile, h]

theorem dropWhile_append_of_not_all {p : Char → Bool} (ws l : List Char)
    (h : ws.all p = false) : (ws ++ l).dropWhile p = ws.dropWhile p ++ l := by
  induction ws with
  | nil => simp at h
  | cons c w ih =>
    cases hc : p c with
    | true =>
      simp only [List.all_cons, hc, Bool.true_and] at h
      simp [List.dropWhile, hc, ih h]
    | false => simp [List.dropWhile, hc]

theorem dropWhile_head_false {p : Char → Bool} :
    ∀ (l : List Char) (c : Char) (t : List Char), l.dropWhile p = c :: t → p c = false := by
  intro l
  induction l with
  | nil => intro c t h; simp [List.dropWhile] at h
  | cons x xs ih =>
    intro c t h
    cases hx : p x with
    | true =>
      rw [List.dropWhile_cons, hx] at h
      simp only [if_true] at h
      exact ih c t h
    | false =>
      rw [List.dropWhile_cons, hx] at h
      simp only [Bool.false_eq_true, if_false] at h
      cases h
      exact hx

theorem sepC_facts (c : Char) (h : sepC c = true) :
    isWordChar c = false ∧ digitC c = false ∧ c ≠ '"' ∧ c ≠ 't' ∧ c ≠ 'f'
      ∧ c ≠ 'n' ∧ c ≠ ':' ∧ c ≠ '-' ∧ c ≠ '.' ∧ c ≠ 'e' ∧ c ≠ 'E' := by
  simp only [sepC, Bool.or_eq_true, decide_eq_true_eq] at h
  rcases h with ((((((((h | h) | h) | h) | h) | h) | h) | h) | h) <;> subst h <;> decide

theorem jsWsC_sepC (c : Char) (h : jsWsC c = true) : sepC c = true := by
  simp only [jsWsC, Bool.or_eq_true, decide_eq_true_eq] at h
  rcases h with (((h | h) | h) | h) <;> subst h <;> decide

theorem digitC_ne (d c : Char) (hd : digitC d = true) (hc : digitC c = false) :
    d ≠ c := by
  intro he
  rw [he, hc] at hd
  exact Bool.noConfusion hd

theorem beq_false_of_ne {c d : Char} (h : c ≠ d) : (c == d) = false := by
  simpa using h

end Verify

namespace Verify

theorem matchStrBody_render (body : List SItem) (rest : List Char)
    (hok : body.all SItem.ok = true) :
    matchStrBody (renderBody body ++ '"' :: rest)
      = some (renderBody body ++ ['"'], rest) := by
  induction body with
  | nil =>
    show matchStrBody ('"' :: rest) = _
    rw [matchStrBody.eq_def]
    simp [renderBody]
  | cons i b ih =>
    simp only [List.all_cons, Bool.and_eq_true] at hok
    have ihb := ih hok.2
    cases i with
    | plain c =>
      have hi := hok.1
      simp only [SItem.ok, Bool.and_eq_true, Bool.not_eq_true', decide_eq_false_iff_not]
        at hi
      show matchStrBody (c :: (renderBody b ++ '"' :: rest)) = _
      rw [matchStrBody.eq_def]
      simp only [if_neg hi.1, if_neg hi.2, ihb]
      simp [renderBody, SItem.render]
    | esc c =>
      have hi := hok.1
      simp only [SItem.ok, Bool.not_eq_true', decide_eq_false_iff_not] at hi
      show matchStrBody ('\\' :: c :: (renderBody b ++ '"' :: rest)) = _
      rw [matchStrBody.eq_def]
      simp only [reduceCtorEq, if_neg hi, ihb]
      simp [renderBody, SItem.render]
    | uesc a b2 c d =>
      have hi := hok.1
      simp only [SItem.ok, Bool.and_eq_true] at hi
      show matchStrBody ('\\' :: 'u' :: a :: b2 :: c :: d :: (renderBody b ++ '"' :: rest))
        = _
      rw [matchStrBody.eq_def]
      simp only [hi.1.1.1, hi.1.1.2, hi.1.2, hi.2, Bool.and_self, if_true, ihb]
      simp [renderBody, SItem.render]

end Verify

namespace Verify

theorem matchString_str (body : List SItem) (rest : List Char)
    (hok : body.all SItem.ok = true)
    (hcol : ¬((rest.dropWhile jsWsC).head? = some ':')) :
    matchString ('"' :: (renderBody body ++ '"' :: rest))
      = some ('"' :: (renderBody body ++ ['"']), rest) := by
  rw [matchString.eq_def]
  simp only [if_pos rfl, matchStrBody_render body rest hok]
  rw [if_neg hcol, if_pos trivial]

theorem matchString_key (body : List SItem) (ws rest : List Char)
    (hok : body.all SItem.ok = true) (hws : ws.all jsWsC = true) :
    matchString ('"' :: (renderBody body ++ '"' :: (ws ++ ':' :: rest)))
      = some ('"' :: (renderBody body ++ ['"'] ++ ws ++ [':']), rest) := by
  rw [matchString.eq_def]
  simp only [if_pos rfl, matchStrBody_render body (ws ++ ':' :: rest) hok]
  have hdrop : ((ws ++ ':' :: rest).dropWhile jsWsC) = ':' :: rest := by
    rw [dropWhile_append_of_all ws _ hws, dropWhile_cons_false]
    decide
  have htake : ((ws ++ ':' :: rest).takeWhile jsWsC) = ws := by
    rw [takeWhile_append_of_all ws _ hws, takeWhile_cons_false]
    · simp
    · decide
  simp only [hdrop, htake, List.head?, List.tail]
  simp

theorem classify_string (body : List SItem) :
    classify ('"' :: (renderBody body ++ ['"'])) = "json-string" := by
  rw [classify]
  have hlast : ('"' :: (renderBody body ++ ['"'])).getLast? = some '"' := by
    rw [show '"' :: (renderBody body ++ ['"']) = ('"' :: renderBody body) ++ ['"'] by simp]
    exact List.getLast?_concat _
  simp [hlast]

theorem classify_key (body : List SItem) (ws : List Char) :
    classify ('"' :: (renderBody body ++ ['"'] ++ ws ++ [':'])) = "json-key" := by
  rw [classify]
  have hlast : ('"' :: (renderBody body ++ '"' :: (ws ++ [':']))).getLast? = some ':' := by
    rw [show '"' :: (renderBody body ++ '"' :: (ws ++ [':']))
        = ('"' :: (renderBody body ++ '"' :: ws)) ++ [':'] by simp]
    exact List.getLast?_concat _
  simp [hlast]

end Verify

namespace Verify

theorem matchTok_none_sep (prev : Option Char) (c : Char) (l : List Char)
    (hc : sepC c = true) : matchTok prev (c :: l) = none := by
  obtain ⟨hw, hd, hq, ht, hf, hn, hcl, hm, hdot, he, hE⟩ := sepC_facts c hc
  have h1 : matchString (c :: l) = none := by
    rw [matchString.eq_def]
    simp only [if_neg hq]
  have hlit : ∀ w : List Char, ∀ a : Char, ∀ w', w = a :: w' → c ≠ a →
      matchLit1 prev w (c :: l) = none := by
    intro w a w' hw' hne
    rw [matchLit1, hw']
    have : (a :: w').isPrefixOf (c :: l) = false := by
      simp [List.isPrefixOf, beq_false_of_ne (Ne.symm hne)]
    simp [this]
  have h2 : matchLiteral prev (c :: l) = none := by
    rw [matchLiteral]
    rw [hlit "true".data 't' "rue".data rfl ht,
        hlit "false".data 'f' "alse".data rfl hf,
        hlit "null".data 'n' "ull".data rfl hn]
  have h3 : matchNumber (c :: l) = none := by
    rw [matchNumber]
    have hh : ¬((c :: l).head? = some '-') := by
      simp only [List.head?, Option.some.injEq]
      exact hm
    simp only [if_neg hh, takeWhile_cons_false c l hd, List.isEmpty_nil, if_pos rfl]
    rw [if_pos trivial]
  rw [matchTok, h1, h2, h3]

theorem matchLit1_render (prev : Option Char) (w rest : List Char)
    (hb : boundaryBefore prev = true) (ha : boundaryAfter rest = true) :
    matchLit1 prev w (w ++ rest) = some (w, rest) := by
  rw [matchLit1]
  have hpre : w.isPrefixOf (w ++ rest) = true := by
    rw [List.isPrefixOf_iff_prefix]
    exact List.prefix_append w rest
  have hdrop : (w ++ rest).drop w.length = rest := List.drop_left w rest
  simp only [hpre, if_true, hdrop, hb, ha, Bool.and_self, if_pos rfl]

theorem matchLit1_none (prev : Option Char) (w cs : List Char)
    (h : w.isPrefixOf cs = false) : matchLit1 prev w cs = none := by
  rw [matchLit1]
  simp [h]

theorem matchTok_true (prev : Option Char) (rest : List Char)
    (hb : boundaryBefore prev = true) (ha : boundaryAfter rest = true) :
    matchTok prev ("true".data ++ rest) = some ("true".data, "json-boolean", rest) := by
  have h1 : matchString ("true".data ++ rest) = none := by
    rw [matchString.eq_def]
    simp
  have h2 : matchLiteral prev ("true".data ++ rest) = some ("true".data, rest) := by
    rw [matchLiteral, matchLit1_render prev "true".data rest hb ha]
  rw [matchTok, h1, h2]
  rfl

theorem matchTok_false (prev : Option Char) (rest : List Char)
    (hb : boundaryBefore prev = true) (ha : boundaryAfter rest = true) :
    matchTok prev ("false".data ++ rest) = some ("false".data, "json-boolean", rest) := by
  have h1 : matchString ("false".data ++ rest) = none := by
    rw [matchString.eq_def]
    simp
  have h2 : matchLiteral prev ("false".data ++ rest) = some ("false".data, rest) := by
    rw [matchLiteral]
    rw [matchLit1_none prev "true".data _ (by simp [List.isPrefixOf])]
    rw [matchLit1_render prev "false".data rest hb ha]
  rw [matchTok, h1, h2]
  rfl

theorem matchTok_null (prev : Option Char) (rest : List Char)
    (hb : boundaryBefore prev = true) (ha : boundaryAfter rest = true) :
    matchTok prev ("null".data ++ rest) = some ("null".data, "json-null", rest) := by
  have h1 : matchString ("null".data ++ rest) = none := by
    rw [matchString.eq_def]
    simp
  have h2 : matchLiteral prev ("null".data ++ rest) = some ("null".data, rest) := by
    rw [matchLiteral]
    rw [matchLit1_none prev "true".data _ (by simp [List.isPrefixOf])]
    rw [matchLit1_none prev "false".data _ (by simp [List.isPrefixOf])]
    rw [matchLit1_render prev "null".data rest hb ha]
  rw [matchTok, h1, h2]
  rfl

end Verify

namespace Verify

/-- Characters that stop the number regex: the next character (if any)
continues neither the digit run, nor a fraction, nor an exponent. -/
def numStop : List Char → Bool
  | [] => true
  | c :: _ => !digitC c && !(c = '.') && !(c = 'e') && !(c = 'E')

theorem numStop_facts (cs : List Char) (h : numStop cs = true) :
    cs.takeWhile digitC = [] ∧ cs.dropWhile digitC = cs
      ∧ ∀ c l, cs = c :: l → digitC c = false ∧ c ≠ '.' ∧ c ≠ 'e' ∧ c ≠ 'E' := by
  cases cs with
  | nil => exact ⟨rfl, rfl, fun c l hcl => by cases hcl⟩
  | cons c l =>
    simp only [numStop, Bool.and_eq_true, Bool.not_eq_true',
      decide_eq_false_iff_not] at h
    refine ⟨takeWhile_cons_false c l h.1.1.1, dropWhile_cons_false c l h.1.1.1, ?_⟩
    intro c' l' hcl
    cases hcl
    exact ⟨h.1.1.1, h.1.1.2, h.1.2, h.2⟩

theorem matchExp_none (c : Char) (r : List Char) (he : c ≠ 'e') (hE : c ≠ 'E') :
    matchExp (c :: r) = ([], c :: r) := by
  simp [matchExp, he, hE]

theorem matchExp_render (e : Char) (sg xs rest : List Char)
    (he : e = 'e' ∨ e = 'E') (hsg : sg = [] ∨ sg = ['+'] ∨ sg = ['-'])
    (hxs : xs.isEmpty = false) (hdig : xs.all digitC = true)
    (hstop : numStop rest = true) :
    matchExp (e :: (sg ++ (xs ++ rest))) = (e :: (sg ++ xs), rest) := by
  obtain ⟨ht, hd, -⟩ := numStop_facts rest hstop
  have htake : (xs ++ rest).takeWhile digitC = xs := by
    rw [takeWhile_append_of_all xs rest hdig, ht, List.append_nil]
  have hdrop : (xs ++ rest).dropWhile digitC = rest := by
    rw [dropWhile_append_of_all xs rest hdig, hd]
  obtain ⟨x, xs', hx⟩ : ∃ x xs', xs = x :: xs' := by
    cases xs with
    | nil => simp at hxs
    | cons x xs' => exact ⟨x, xs', rfl⟩
  have hxd : digitC x = true := by
    rw [hx] at hdig
    simp only [List.all_cons, Bool.and_eq_true] at hdig
    exact hdig.1
  have hcond : (decide (e = 'e') || decide (e = 'E')) = true := by
    rcases he with he | he <;> simp [he]
  rcases hsg with hsg | hsg | hsg
  · subst hsg
    subst hx
    have h1 : x ≠ '+' := digitC_ne x '+' hxd (by decide)
    have h2 : x ≠ '-' := digitC_ne x '-' hxd (by decide)
    simp only [List.nil_append] at htake hdrop ⊢
    rw [matchExp.eq_def]
    simp only [List.cons_append, List.head?_cons, Option.some.injEq, hcond, if_true]
    rw [if_neg (by simp [h1, h2])]
    simp only [List.cons_append] at htake hdrop
    rw [htake, hdrop]
    simp
  · subst hsg
    subst hx
    rw [matchExp.eq_def]
    simp only [List.cons_append, List.nil_append, List.head?_cons, Option.some.injEq,
      hcond, if_true]
    rw [if_pos (by simp), List.tail_cons]
    simp only [List.cons_append] at htake hdrop
    rw [htake, hdrop]
    simp
  · subst hsg
    subst hx
    rw [matchExp.eq_def]
    simp only [List.cons_append, List.nil_append, List.head?_cons, Option.some.injEq,
      hcond, if_true]
    rw [if_pos (by simp), List.tail_cons]
    simp only [List.cons_append] at htake hdrop
    rw [htake, hdrop]
    simp

end Verify

namespace Verify

theorem matchNumber_shape (cs sign cs1 ds T frac cs3 ex cs4 : List Char)
    (hsign : (if cs.head? = some '-' then (['-'] : List Char) else []) = sign)
    (hcs1 : (if cs.head? = some '-' then cs.tail else cs) = cs1)
    (htake : cs1.takeWhile digitC = ds) (hdrop : cs1.dropWhile digitC = T)
    (hne : ds.isEmpty = false)
    (hfrac : (if T.head? = some '.' then '.' :: T.tail.takeWhile digitC else []) = frac)
    (hcs3 : (if T.head? = some '.' then T.tail.dropWhile digitC else T) = cs3)
    (hexp : matchExp cs3 = (ex, cs4)) :
    matchNumber cs = some (sign ++ ds ++ frac ++ ex, cs4) := by
  simp only [matchNumber]
  rw [hsign, hcs1, htake, hdrop]
  rw [if_neg (by simp [hne] : ¬(ds.isEmpty = true))]
  rw [hfrac, hcs3, hexp]

theorem matchNumber_render0 (ds : List Char) (frac : Option (List Char))
    (exS : Option (Char × List Char × List Char)) (rest : List Char)
    (hok : (NumShape.mk false ds frac exS).ok = true) (hstop : numStop rest = true) :
    matchNumber ((NumShape.mk false ds frac exS).render ++ rest)
      = some ((NumShape.mk false ds frac exS).render, rest) := by
  simp only [NumShape.ok, Bool.and_eq_true] at hok
  obtain ⟨⟨⟨hds0, hdsd⟩, hfr⟩, hex⟩ := hok
  have hds0' : ds.isEmpty = false := by simpa using hds0
  obtain ⟨hrt, hrd, hrh⟩ := numStop_facts rest hstop
  obtain ⟨d, ds', hds⟩ : ∃ d ds', ds = d :: ds' := by
    cases ds with
    | nil => simp at hds0'
    | cons d ds' => exact ⟨d, ds', rfl⟩
  subst hds
  have hdd : digitC d = true := by
    have h := hdsd
    simp only [List.all_cons, Bool.and_eq_true] at h
    exact h.1
  have hnd : d ≠ '-' := digitC_ne d '-' hdd (by decide)
  rcases exS with _ | ⟨e, sg, xs⟩
  · have hexp0 : matchExp rest = ([], rest) := by
      cases hr : rest with
      | nil => rfl
      | cons c l =>
        obtain ⟨-, -, hce, hcE⟩ := hrh c l hr
        exact matchExp_none c l hce hcE
    have hUdot : ¬(rest.head? = some '.') := by
      cases hr : rest with
      | nil => simp
      | cons c l =>
        obtain ⟨-, hcd, -, -⟩ := hrh c l hr
        simp [hr, hcd]
    rcases frac with _ | f
    · rw [show (NumShape.mk false (d :: ds') none none).render ++ rest
          = (d :: ds') ++ rest by simp [NumShape.render]]
      refine Eq.trans (matchNumber_shape ((d :: ds') ++ rest) [] ((d :: ds') ++ rest)
        (d :: ds') rest [] rest [] rest ?_ ?_ ?_ ?_ ?_ ?_ ?_ ?_) ?_
      · simp [hnd]
      · simp [hnd]
      · rw [takeWhile_append_of_all _ _ hdsd, hrt, List.append_nil]
      · rw [dropWhile_append_of_all _ _ hdsd, hrd]
      · rfl
      · rw [if_neg hUdot]
      · rw [if_neg hUdot]
      · exact hexp0
      · simp [NumShape.render]
    · have hfr' : f.all digitC = true := hfr
      rw [show (NumShape.mk false (d :: ds') (some f) none).render ++ rest
          = (d :: ds') ++ ('.' :: (f ++ rest)) by simp [NumShape.render]]
      refine Eq.trans (matchNumber_shape ((d :: ds') ++ ('.' :: (f ++ rest))) []
        ((d :: ds') ++ ('.' :: (f ++ rest))) (d :: ds') ('.' :: (f ++ rest))
        ('.' :: f) rest [] rest ?_ ?_ ?_ ?_ ?_ ?_ ?_ ?_) ?_
      · simp [hnd]
      · simp [hnd]
      · rw [takeWhile_append_of_all _ _ hdsd,
          takeWhile_cons_false _ _ (by decide), List.append_nil]
      · rw [dropWhile_append_of_all _ _ hdsd, dropWhile_cons_false _ _ (by decide)]
      · rfl
      · rw [if_pos (show ('.' :: (f ++ rest)).head? = some '.' from rfl),
          List.tail_cons, takeWhile_append_of_all _ _ hfr', hrt, List.append_nil]
      · rw [if_pos (show ('.' :: (f ++ rest)).head? = some '.' from rfl),
          List.tail_cons, dropWhile_append_of_all _ _ hfr', hrd]
      · exact hexp0
      · simp [NumShape.render]
  · have hex' : ((((decide (e = 'e') || decide (e = 'E'))
        && (sg.isEmpty || decide (sg = ['+']) || decide (sg = ['-'])))
        && !xs.isEmpty) && xs.all digitC) = true := hex
    simp only [Bool.and_eq_true] at hex'
    obtain ⟨⟨⟨ha, hb⟩, hc⟩, hxsd⟩ := hex'
    have he : e = 'e' ∨ e = 'E' := by simpa using ha
    have hxs0 : xs.isEmpty = false := by simpa using hc
    have hsg' : sg = [] ∨ sg = ['+'] ∨ sg = ['-'] := by
      simp only [Bool.or_eq_true, decide_eq_true_eq] at hb
      rcases hb with (h | h) | h
      · left
        cases sg with
        | nil => rfl
        | cons a l => exact absurd h (by simp)
      · right; left; exact h
      · right; right; exact h
    have hde : digitC e = false := by
      rcases he with h | h <;> subst h <;> decide
    have hedot : e ≠ '.' := by
      rcases he with h | h <;> subst h <;> decide
    have hexp0 : matchExp (e :: (sg ++ (xs ++ rest))) = (e :: (sg ++ xs), rest) :=
      matchExp_render e sg xs rest he hsg' hxs0 hxsd hstop
    have hUt : (e :: (sg ++ (xs ++ rest))).takeWhile digitC = [] :=
      takeWhile_cons_false _ _ hde
    have hUd : (e :: (sg ++ (xs ++ rest))).dropWhile digitC = e :: (sg ++ (xs ++ rest)) :=
      dropWhile_cons_false _ _ hde
    have hUdot : ¬((e :: (sg ++ (xs ++ rest))).head? = some '.') := by
      simp [hedot]
    rcases frac with _ | f
    · rw [show (NumShape.mk false (d :: ds') none (some (e, sg, xs))).render ++ rest
          = (d :: ds') ++ (e :: (sg ++ (xs ++ rest))) by simp [NumShape.render]]
      refine Eq.trans (matchNumber_shape ((d :: ds') ++ (e :: (sg ++ (xs ++ rest)))) []
        ((d :: ds') ++ (e :: (sg ++ (xs ++ rest)))) (d :: ds')
        (e :: (sg ++ (xs ++ rest))) [] (e :: (sg ++ (xs ++ rest)))
        (e :: (sg ++ xs)) rest ?_ ?_ ?_ ?_ ?_ ?_ ?_ ?_) ?_
      · simp [hnd]
      · simp [hnd]
      · rw [takeWhile_append_of_all _ _ hdsd, hUt, List.append_nil]
      · rw [dropWhile_append_of_all _ _ hdsd, hUd]
      · rfl
      · rw [if_neg hUdot]
      · rw [if_neg hUdot]
      · exact hexp0
      · simp [NumShape.render]
    · have hfr' : f.all digitC = true := hfr
      rw [show (NumShape.mk false (d :: ds') (some f) (some (e, sg, xs))).render ++ rest
          = (d :: ds') ++ ('.' :: (f ++ (e :: (sg ++ (xs ++ rest)))))
          by simp [NumShape.render]]
      refine Eq.trans (matchNumber_shape
        ((d :: ds') ++ ('.' :: (f ++ (e :: (sg ++ (xs ++ rest)))))) []
        ((d :: ds') ++ ('.' :: (f ++ (e :: (sg ++ (xs ++ rest)))))) (d :: ds')
        ('.' :: (f ++ (e :: (sg ++ (xs ++ rest))))) ('.' :: f)
        (e :: (sg ++ (xs ++ rest))) (e :: (sg ++ xs)) rest
        ?_ ?_ ?_ ?_ ?_ ?_ ?_ ?_) ?_
      · simp [hnd]
      · simp [hnd]
      · rw [takeWhile_append_of_all _ _ hdsd,
          takeWhile_cons_false _ _ (by decide), List.append_nil]
      · rw [dropWhile_append_of_all _ _ hdsd, dropWhile_cons_false _ _ (by decide)]
      · rfl
      · rw [if_pos (show ('.' :: (f ++ (e :: (sg ++ (xs ++ rest))))).head? = some '.'
            from rfl),
          List.tail_cons, takeWhile_append_of_all _ _ hfr', hUt, List.append_nil]
      · rw [if_pos (show ('.' :: (f ++ (e :: (sg ++ (xs ++ rest))))).head? = some '.'
            from rfl),
          List.tail_cons, dropWhile_append_of_all _ _ hfr', hUd]
      · exact hexp0
      · simp [NumShape.render]

theorem matchNumber_neg (l : List Char) (hl : ¬(l.head? = some '-')) :
    matchNumber ('-' :: l) = (matchNumber l).map (fun p => ('-' :: p.1, p.2)) := by
  have h1 : (('-' :: l).head? = some '-') := rfl
  simp only [matchNumber]
  rw [if_pos h1, if_pos h1, if_neg hl, if_neg hl, List.tail_cons]
  cases hte : (l.takeWhile digitC).isEmpty <;> simp

theorem matchNumber_render (n : NumShape) (rest : List Char)
    (hok : n.ok = true) (hstop : numStop rest = true) :
    matchNumber (n.render ++ rest) = some (n.render, rest) := by
  obtain ⟨neg, ds, frac, exS⟩ := n
  cases neg with
  | false => exact matchNumber_render0 ds frac exS rest hok hstop
  | true =>
    have hok0 : (NumShape.mk false ds frac exS).ok = true := hok
    have h0 := matchNumber_render0 ds frac exS rest hok0 hstop
    have hds0 : ds.isEmpty = false := by
      simp only [NumShape.ok, Bool.and_eq_true] at hok
      simpa using hok.1.1.1
    obtain ⟨d, ds', hds⟩ : ∃ d ds', ds = d :: ds' := by
      cases ds with
      | nil => simp at hds0
      | cons d ds' => exact ⟨d, ds', rfl⟩
    have hdd : digitC d = true := by
      simp only [NumShape.ok, Bool.and_eq_true] at hok
      have h := hok.1.1.2
      rw [hds] at h
      simp only [List.all_cons, Bool.and_eq_true] at h
      exact h.1
    have hnd : d ≠ '-' := digitC_ne d '-' hdd (by decide)
    have hrender : (NumShape.mk true ds frac exS).render
        = '-' :: (NumShape.mk false ds frac exS).render := by
      simp [NumShape.render]
    have hhead : ((NumShape.mk false ds frac exS).render ++ rest).head? = some d := by
      simp [NumShape.render, hds]
    have hl : ¬(((NumShape.mk false ds frac exS).render ++ rest).head? = some '-') := by
      rw [hhead]
      simp [hnd]
    rw [hrender, List.cons_append, matchNumber_neg _ hl, h0]
    simp

end Verify

namespace Verify

theorem digit_not_ws (d : Char) (hd : digitC d = true) : jsWsC d = false := by
  cases hw : jsWsC d with
  | false => rfl
  | true =>
    exfalso
    simp only [jsWsC, Bool.or_eq_true, decide_eq_true_eq] at hw
    rcases hw with ((h | h) | h) | h <;> subst h <;> exact absurd hd (by decide)

theorem numRender_ne_nil (n : NumShape) (hok : n.ok = true) : n.render ≠ [] := by
  obtain ⟨neg, ds, frac, exS⟩ := n
  simp only [NumShape.ok, Bool.and_eq_true] at hok
  have hds0 : ds.isEmpty = false := by simpa using hok.1.1.1
  obtain ⟨d, ds', hds⟩ : ∃ d ds', ds = d :: ds' := by
    cases ds with
    | nil => simp at hds0
    | cons d ds' => exact ⟨d, ds', rfl⟩
  subst hds
  cases neg <;> simp [NumShape.render]

theorem numRender_head (n : NumShape) (hok : n.ok = true) :
    ∃ c t, n.render = c :: t ∧ (c = '-' ∨ digitC c = true) := by
  obtain ⟨neg, ds, frac, exS⟩ := n
  simp only [NumShape.ok, Bool.and_eq_true] at hok
  have hds0 : ds.isEmpty = false := by simpa using hok.1.1.1
  have hdsd := hok.1.1.2
  obtain ⟨d, ds', hds⟩ : ∃ d ds', ds = d :: ds' := by
    cases ds with
    | nil => simp at hds0
    | cons d ds' => exact ⟨d, ds', rfl⟩
  subst hds
  have hdd : digitC d = true := by
    simp only [List.all_cons, Bool.and_eq_true] at hdsd
    exact hdsd.1
  have hh : ∃ c, (NumShape.mk neg (d :: ds') frac exS).render.head? = some c
      ∧ (c = '-' ∨ digitC c = true) := by
    cases neg with
    | false => exact ⟨d, by simp [NumShape.render], Or.inr hdd⟩
    | true => exact ⟨'-', by simp [NumShape.render], Or.inl rfl⟩
  obtain ⟨c, hhd, hc⟩ := hh
  cases hren : (NumShape.mk neg (d :: ds') frac exS).render with
  | nil =>
    rw [hren] at hhd
    exact absurd hhd (by simp)
  | cons c' t =>
    rw [hren, List.head?_cons] at hhd
    injection hhd with h
    exact ⟨c', t, rfl, by rw [h]; exact hc⟩

theorem segs_nil_of_render_nil (segs : List Seg) (hok : segsOk segs = true)
    (hr : renderSegs segs = []) : segs = [] := by
  cases segs with
  | nil => rfl
  | cons s r =>
    exfalso
    simp only [segsOk, Bool.and_eq_true] at hok
    have hs := hok.1.1
    rw [renderSegs] at hr
    rw [List.append_eq_nil] at hr
    have hsr := hr.1
    cases s with
    | sep l =>
      simp only [Seg.ok, Bool.and_eq_true, Bool.not_eq_true'] at hs
      rw [Seg.render] at hsr
      rw [hsr] at hs
      simp at hs
    | strTok body => simp [Seg.render] at hsr
    | keyTok body ws => simp [Seg.render] at hsr
    | boolTok b => cases b <;> simp [Seg.render] at hsr
    | nullTok => simp [Seg.render] at hsr
    | numTok n => exact numRender_ne_nil n hs hsr

theorem after_tok_facts (r : List Seg) (hok : segsOk r = true)
    (hh : headSepOrEnd r = true) :
    boundaryAfter (renderSegs r) = true ∧ numStop (renderSegs r) = true := by
  cases r with
  | nil => exact ⟨rfl, rfl⟩
  | cons s r' =>
    cases s with
    | sep l =>
      simp only [segsOk, Bool.and_eq_true] at hok
      have hs := hok.1.1
      simp only [Seg.ok, Bool.and_eq_true, Bool.not_eq_true'] at hs
      obtain ⟨hne, hall⟩ := hs
      obtain ⟨c, l', hl⟩ : ∃ c l', l = c :: l' := by
        cases l with
        | nil => simp at hne
        | cons c l' => exact ⟨c, l', rfl⟩
      subst hl
      have hc : sepC c = true := by
        simp only [List.all_cons, Bool.and_eq_true] at hall
        exact hall.1
      obtain ⟨hw, hd, -, -, -, -, -, -, hdot, he, hE⟩ := sepC_facts c hc
      constructor
      · show boundaryAfter (c :: (l' ++ renderSegs r')) = true
        simp [boundaryAfter, hw]
      · show numStop (c :: (l' ++ renderSegs r')) = true
        simp [numStop, hd, hdot, he, hE]
    | strTok body => exact Bool.noConfusion hh
    | keyTok body ws => exact Bool.noConfusion hh
    | boolTok b => exact Bool.noConfusion hh
    | nullTok => exact Bool.noConfusion hh
    | numTok n => exact Bool.noConfusion hh

theorem prevOk_of_headSep (prev : Option Char) (r : List Seg)
    (hh : headSepOrEnd r = true) : prevOk prev r := by
  cases r with
  | nil => trivial
  | cons s r' =>
    cases s with
    | sep l => trivial
    | strTok body => trivial
    | keyTok body ws => trivial
    | boolTok b => exact Bool.noConfusion hh
    | nullTok => exact Bool.noConfusion hh
    | numTok n => trivial

theorem prevOk_of_nonword (c : Char) (r : List Seg) (hc : isWordChar c = false) :
    prevOk (some c) r := by
  cases r with
  | nil => trivial
  | cons s r' =>
    cases s with
    | sep l => trivial
    | strTok body => trivial
    | keyTok body ws => trivial
    | boolTok b =>
      show boundaryBefore (some c) = true
      simp [boundaryBefore, hc]
    | nullTok =>
      show boundaryBefore (some c) = true
      simp [boundaryBefore, hc]
    | numTok n => trivial

end Verify

namespace Verify

theorem colonFree : ∀ segs : List Seg, segsOk segs = true →
    ¬(((renderSegs segs).dropWhile jsWsC).head? = some ':') := by
  intro segs
  induction segs with
  | nil =>
    intro _ h
    simp [renderSegs] at h
  | cons s r ih =>
    intro hok
    simp only [segsOk, Bool.and_eq_true] at hok
    obtain ⟨⟨hs, hf⟩, hr⟩ := hok
    cases s with
    | sep l =>
      simp only [Seg.ok, Bool.and_eq_true, Bool.not_eq_true'] at hs
      obtain ⟨-, hall⟩ := hs
      show ¬(((l ++ renderSegs r).dropWhile jsWsC).head? = some ':')
      clear hf
      revert hall
      induction l with
      | nil =>
        intro _
        simpa using ih hr
      | cons c l' ihl =>
        intro hall
        have hc : sepC c = true := by
          simp only [List.all_cons, Bool.and_eq_true] at hall
          exact hall.1
        have hall' : l'.all sepC = true := by
          simp only [List.all_cons, Bool.and_eq_true] at hall
          exact hall.2
        obtain ⟨-, -, -, -, -, -, hcl, -, -, -, -⟩ := sepC_facts c hc
        cases hwc : jsWsC c with
        | true =>
          rw [List.cons_append, List.dropWhile_cons, hwc]
          simp only [if_true]
          exact ihl hall'
        | false =>
          rw [List.cons_append, List.dropWhile_cons, hwc]
          simp only [Bool.false_eq_true, if_false, List.head?_cons]
          intro h
          injection h with h
          exact hcl h
    | strTok body =>
      show ¬(((('"' : Char) :: ((renderBody body ++ ['"']) ++ renderSegs r)).dropWhile
        jsWsC).head? = some ':')
      rw [dropWhile_cons_false _ _ (by decide), List.head?_cons]
      simp
    | keyTok body ws =>
      show ¬(((('"' : Char) :: ((renderBody body ++ ['"'] ++ ws ++ [':'])
        ++ renderSegs r)).dropWhile jsWsC).head? = some ':')
      rw [dropWhile_cons_false _ _ (by decide), List.head?_cons]
      simp
    | boolTok b =>
      cases b with
      | true =>
        show ¬(((('t' : Char) :: ("rue".data ++ renderSegs r)).dropWhile
          jsWsC).head? = some ':')
        rw [dropWhile_cons_false _ _ (by decide), List.head?_cons]
        simp
      | false =>
        show ¬(((('f' : Char) :: ("alse".data ++ renderSegs r)).dropWhile
          jsWsC).head? = some ':')
        rw [dropWhile_cons_false _ _ (by decide), List.head?_cons]
        simp
    | nullTok =>
      show ¬(((('n' : Char) :: ("ull".data ++ renderSegs r)).dropWhile
        jsWsC).head? = some ':')
      rw [dropWhile_cons_false _ _ (by decide), List.head?_cons]
      simp
    | numTok n =>
      obtain ⟨c, t, hcons, hc⟩ := numRender_head n hs
      have hwc : jsWsC c = false := by
        rcases hc with h | h
        · subst h; decide
        · exact digit_not_ws c h
      have hcl : c ≠ ':' := by
        rcases hc with h | h
        · subst h; decide
        · exact digitC_ne c ':' h (by decide)
      rw [renderSegs, show Seg.render (Seg.numTok n) = n.render from rfl, hcons,
        List.cons_append, dropWhile_cons_false _ _ hwc, List.head?_cons]
      intro h
      injection h with h
      exact hcl h

theorem containsSeq_head_mem (c : Char) (p : List Char) :
    ∀ l : List Char, containsSeq (c :: p) l = true → c ∈ l := by
  intro l
  induction l with
  | nil =>
    intro h
    rw [containsSeq] at h
    rw [List.isPrefixOf_iff_prefix] at h
    simp at h
  | cons a r ih =>
    intro h
    rw [containsSeq] at h
    simp only [Bool.or_eq_true] at h
    rcases h with h1 | h2
    · rw [List.isPrefixOf_iff_prefix] at h1
      obtain ⟨t, ht⟩ := h1
      rw [List.cons_append] at ht
      injection ht with h3 h4
      subst h3
      exact List.mem_cons_self c r
    · exact List.mem_cons_of_mem a (ih h2)

/-- Characters that can occur in a number token. -/
def numC (c : Char) : Bool :=
  digitC c || c = '-' || c = '.' || c = 'e' || c = 'E' || c = '+'

theorem all_digit_numC (l : List Char) (h : l.all digitC = true) :
    l.all numC = true := by
  rw [List.all_eq_true] at *
  intro x hx
  have hd := h x hx
  simp [numC, hd]

theorem numRender_numC (n : NumShape) (hok : n.ok = true) :
    n.render.all numC = true := by
  obtain ⟨neg, ds, frac, exS⟩ := n
  simp only [NumShape.ok, Bool.and_eq_true] at hok
  obtain ⟨⟨⟨-, hdsd⟩, hfr⟩, hex⟩ := hok
  simp only [NumShape.render, List.all_append, Bool.and_eq_true]
  refine ⟨⟨⟨?_, all_digit_numC ds hdsd⟩, ?_⟩, ?_⟩
  · cases neg <;> simp [numC]
  · rcases frac with _ | f
    · simp
    · have hfr' : f.all digitC = true := hfr
      simp only [List.all_cons, Bool.and_eq_true]
      exact ⟨by decide, all_digit_numC f hfr'⟩
  · rcases exS with _ | ⟨e, sg, xs⟩
    · simp
    · have hex' : ((((decide (e = 'e') || decide (e = 'E'))
          && (sg.isEmpty || decide (sg = ['+']) || decide (sg = ['-'])))
          && !xs.isEmpty) && xs.all digitC) = true := hex
      simp only [Bool.and_eq_true] at hex'
      obtain ⟨⟨⟨ha, hb⟩, -⟩, hxsd⟩ := hex'
      have he : e = 'e' ∨ e = 'E' := by simpa using ha
      have hsg' : sg = [] ∨ sg = ['+'] ∨ sg = ['-'] := by
        simp only [Bool.or_eq_true, decide_eq_true_eq] at hb
        rcases hb with (h | h) | h
        · left
          cases sg with
          | nil => rfl
          | cons a l => exact absurd h (by simp)
        · right; left; exact h
        · right; right; exact h
      simp only [List.all_cons, List.all_append, Bool.and_eq_true]
      refine ⟨?_, ?_, all_digit_numC xs hxsd⟩
      · rcases he with h | h <;> subst h <;> decide
      · rcases hsg' with h | h | h <;> subst h <;> decide

end Verify

namespace Verify

theorem classify_num (n : NumShape) (hok : n.ok = true) :
    classify n.render = "json-number" := by
  obtain ⟨c, t, hcons, hc⟩ := numRender_head n hok
  have hq : c ≠ '"' := by
    rcases hc with h | h
    · subst h; decide
    · exact digitC_ne c '"' h (by decide)
  have hmem : ∀ x ∈ n.render, numC x = true :=
    List.all_eq_true.mp (numRender_numC n hok)
  have hct : containsSeq "true".data n.render = false := by
    cases hcv : containsSeq "true".data n.render with
    | false => rfl
    | true =>
      have hm := containsSeq_head_mem 't' "rue".data n.render hcv
      exact absurd (hmem 't' hm) (by decide)
  have hcf : containsSeq "false".data n.render = false := by
    cases hcv : containsSeq "false".data n.render with
    | false => rfl
    | true =>
      have hm := containsSeq_head_mem 'f' "alse".data n.render hcv
      exact absurd (hmem 'f' hm) (by decide)
  have hcn : containsSeq "null".data n.render = false := by
    cases hcv : containsSeq "null".data n.render with
    | false => rfl
    | true =>
      have hm := containsSeq_head_mem 'n' "ull".data n.render hcv
      exact absurd (hmem 'n' hm) (by decide)
  rw [classify, hcons]
  rw [hcons] at hct hcf hcn
  simp [List.head?_cons, hq, hct, hcf, hcn]

theorem matchTok_str (prev : Option Char) (body : List SItem) (rest : List Char)
    (hok : body.all SItem.ok = true)
    (hcol : ¬((rest.dropWhile jsWsC).head? = some ':')) :
    matchTok prev ('"' :: (renderBody body ++ '"' :: rest))
      = some ('"' :: (renderBody body ++ ['"']), "json-string", rest) := by
  rw [matchTok, matchString_str body rest hok hcol]
  simp only [classify_string]

theorem matchTok_key (prev : Option Char) (body : List SItem) (ws rest : List Char)
    (hok : body.all SItem.ok = true) (hws : ws.all jsWsC = true) :
    matchTok prev ('"' :: (renderBody body ++ '"' :: (ws ++ ':' :: rest)))
      = some ('"' :: (renderBody body ++ ['"'] ++ ws ++ [':']), "json-key", rest) := by
  rw [matchTok, matchString_key body ws rest hok hws]
  simp only [classify_key]

theorem matchTok_num (prev : Option Char) (n : NumShape) (rest : List Char)
    (hok : n.ok = true) (hstop : numStop rest = true) :
    matchTok prev (n.render ++ rest) = some (n.render, "json-number", rest) := by
  obtain ⟨c, t, hcons, hc⟩ := numRender_head n hok
  have hq : c ≠ '"' := by
    rcases hc with h | h
    · subst h; decide
    · exact digitC_ne c '"' h (by decide)
  have hT : 't' ≠ c := by
    rcases hc with h | h
    · subst h; decide
    · exact Ne.symm (digitC_ne c 't' h (by decide))
  have hF : 'f' ≠ c := by
    rcases hc with h | h
    · subst h; decide
    · exact Ne.symm (digitC_ne c 'f' h (by decide))
  have hN : 'n' ≠ c := by
    rcases hc with h | h
    · subst h; decide
    · exact Ne.symm (digitC_ne c 'n' h (by decide))
  have hpre : ∀ (a : Char) (w : List Char), a ≠ c →
      (a :: w).isPrefixOf (n.render ++ rest) = false := by
    intro a w ha
    rw [hcons, List.cons_append]
    simp [List.isPrefixOf, beq_false_of_ne ha]
  have h1 : matchString (n.render ++ rest) = none := by
    rw [hcons, List.cons_append, matchString.eq_def]
    simp [hq]
  have h2 : matchLiteral prev (n.render ++ rest) = none := by
    rw [matchLiteral,
      matchLit1_none prev "true".data _ (hpre 't' "rue".data hT),
      matchLit1_none prev "false".data _ (hpre 'f' "alse".data hF),
      matchLit1_none prev "null".data _ (hpre 'n' "ull".data hN)]
  have h3 := matchNumber_render n rest hok hstop
  rw [matchTok, h1, h2, h3]
  simp only [classify_num n hok]

theorem scanJson_tok (fuel : Nat) (prev : Option Char) (cs t r : List Char)
    (cls : String) (hm : matchTok prev cs = some (t, cls, r)) :
    scanJson (fuel + 1) prev cs = wrapSpan cls t ++ scanJson fuel t.getLast? r := by
  cases cs with
  | nil =>
    rw [show matchTok prev [] = none from rfl] at hm
    exact Option.noConfusion hm
  | cons c rest =>
    show (match matchTok prev (c :: rest) with
      | some (t, cls, r) => wrapSpan cls t ++ scanJson fuel t.getLast? r
      | none => c :: scanJson fuel (some c) rest) = _
    rw [hm]

theorem scanJson_skip (fuel : Nat) (prev : Option Char) (c : Char) (rest : List Char)
    (hm : matchTok prev (c :: rest) = none) :
    scanJson (fuel + 1) prev (c :: rest) = c :: scanJson fuel (some c) rest := by
  show (match matchTok prev (c :: rest) with
    | some (t, cls, r) => wrapSpan cls t ++ scanJson fuel t.getLast? r
    | none => c :: scanJson fuel (some c) rest) = _
  rw [hm]

end Verify

namespace Verify

theorem scan_segs : ∀ (fuel : Nat) (s : List Char) (segs : List Seg) (prev : Option Char),
    s.all sepC = true → segsOk segs = true → (s = [] → prevOk prev segs) →
    (s ++ renderSegs segs).length ≤ fuel →
    scanJson fuel prev (s ++ renderSegs segs) = s ++ highlightSegs segs := by
  intro fuel
  induction fuel with
  | zero =>
    intro s segs prev hsall hok hprev hlen
    rw [List.length_append] at hlen
    have hs0 : s = [] := List.length_eq_zero.mp (by omega)
    have hr0 : renderSegs segs = [] := List.length_eq_zero.mp (by omega)
    subst hs0
    have hsegs := segs_nil_of_render_nil segs hok hr0
    subst hsegs
    rfl
  | succ fuel ih =>
    intro s segs prev hsall hok hprev hlen
    cases s with
    | cons c s' =>
      have hc : sepC c = true := by
        simp only [List.all_cons, Bool.and_eq_true] at hsall
        exact hsall.1
      have hs'all : s'.all sepC = true := by
        simp only [List.all_cons, Bool.and_eq_true] at hsall
        exact hsall.2
      rw [List.cons_append,
        scanJson_skip fuel prev c _ (matchTok_none_sep prev c _ hc)]
      have hw := (sepC_facts c hc).1
      have hlen' : (s' ++ renderSegs segs).length ≤ fuel := by
        rw [List.cons_append, List.length_cons] at hlen
        omega
      rw [ih s' segs (some c) hs'all hok
        (fun _ => prevOk_of_nonword c segs hw) hlen']
      rfl
    | nil =>
      simp only [List.nil_append] at hlen ⊢
      cases segs with
      | nil => rfl
      | cons sg r =>
        simp only [segsOk, Bool.and_eq_true] at hok
        obtain ⟨⟨hs, hf⟩, hr⟩ := hok
        cases sg with
        | sep l =>
          simp only [Seg.ok, Bool.and_eq_true, Bool.not_eq_true'] at hs
          obtain ⟨hne, hall⟩ := hs
          obtain ⟨c, l', hl⟩ : ∃ c l', l = c :: l' := by
            cases l with
            | nil => simp at hne
            | cons c l' => exact ⟨c, l', rfl⟩
          subst hl
          have hc : sepC c = true := by
            simp only [List.all_cons, Bool.and_eq_true] at hall
            exact hall.1
          have hl'all : l'.all sepC = true := by
            simp only [List.all_cons, Bool.and_eq_true] at hall
            exact hall.2
          have hshape : renderSegs (Seg.sep (c :: l') :: r)
              = c :: (l' ++ renderSegs r) := by
            simp [renderSegs, Seg.render]
          rw [hshape, scanJson_skip fuel prev c _ (matchTok_none_sep prev c _ hc)]
          have hw := (sepC_facts c hc).1
          have hlen' : (l' ++ renderSegs r).length ≤ fuel := by
            rw [hshape, List.length_cons] at hlen
            omega
          rw [ih l' r (some c) hl'all hr
            (fun _ => prevOk_of_nonword c r hw) hlen']
          have hhi : highlightSegs (Seg.sep (c :: l') :: r)
              = c :: (l' ++ highlightSegs r) := by
            simp [highlightSegs, Seg.highlighted]
          rw [hhi]
        | strTok body =>
          have hshape : renderSegs (Seg.strTok body :: r)
              = '"' :: (renderBody body ++ '"' :: renderSegs r) := by
            simp [renderSegs, Seg.render]
          rw [hshape]
          have hcol := colonFree r hr
          rw [scanJson_tok fuel prev _ _ _ _
            (matchTok_str prev body (renderSegs r) hs hcol)]
          have hlast : ('"' :: (renderBody body ++ ['"'])).getLast? = some '"' := by
            rw [show ('"' :: (renderBody body ++ ['"']))
                = ('"' :: renderBody body) ++ ['"'] by simp]
            exact List.getLast?_concat _
          rw [hlast]
          have hlen' : (renderSegs r).length ≤ fuel := by
            rw [hshape] at hlen
            simp only [List.length_cons, List.length_append] at hlen
            omega
          have hrec := ih [] r (some '"') rfl hr
            (fun _ => prevOk_of_nonword '"' r (by decide)) (by simpa using hlen')
          simp only [List.nil_append] at hrec
          rw [hrec]
          simp [highlightSegs, Seg.highlighted]
        | keyTok body ws =>
          simp only [Seg.ok, Bool.and_eq_true] at hs
          obtain ⟨hbody, hws⟩ := hs
          have hshape : renderSegs (Seg.keyTok body ws :: r)
              = '"' :: (renderBody body ++ '"' :: (ws ++ ':' :: renderSegs r)) := by
            simp [renderSegs, Seg.render]
          rw [hshape]
          rw [scanJson_tok fuel prev _ _ _ _
            (matchTok_key prev body ws (renderSegs r) hbody hws)]
          have hlast : ('"' :: (renderBody body ++ ['"'] ++ ws ++ [':'])).getLast?
              = some ':' := by
            rw [show ('"' :: (renderBody body ++ ['"'] ++ ws ++ [':']))
                = ('"' :: (renderBody body ++ ['"'] ++ ws)) ++ [':'] by simp]
            exact List.getLast?_concat _
          rw [hlast]
          have hlen' : (renderSegs r).length ≤ fuel := by
            rw [hshape] at hlen
            simp only [List.length_cons, List.length_append] at hlen
            omega
          have hrec := ih [] r (some ':') rfl hr
            (fun _ => prevOk_of_nonword ':' r (by decide)) (by simpa using hlen')
          simp only [List.nil_append] at hrec
          rw [hrec]
          simp [highlightSegs, Seg.highlighted]
        | boolTok b =>
          have hb : boundaryBefore prev = true := hprev rfl
          have hfacts := after_tok_facts r hr hf
          cases b with
          | true =>
            show scanJson (fuel + 1) prev ("true".data ++ renderSegs r)
              = highlightSegs (Seg.boolTok true :: r)
            rw [scanJson_tok fuel prev _ _ _ _
              (matchTok_true prev (renderSegs r) hb hfacts.1)]
            rw [show ("true".data).getLast? = some 'e' from rfl]
            have hlen' : (renderSegs r).length ≤ fuel := by
              have hL : renderSegs (Seg.boolTok true :: r)
                  = "true".data ++ renderSegs r := rfl
              rw [hL, List.length_append] at hlen
              have h4 : ("true".data).length = 4 := rfl
              omega
            have hrec := ih [] r (some 'e') rfl hr
              (fun _ => prevOk_of_headSep _ r hf) (by simpa using hlen')
            simp only [List.nil_append] at hrec
            rw [hrec]
            rfl
          | false =>
            show scanJson (fuel + 1) prev ("false".data ++ renderSegs r)
              = highlightSegs (Seg.boolTok false :: r)
            rw [scanJson_tok fuel prev _ _ _ _
              (matchTok_false prev (renderSegs r) hb hfacts.1)]
            rw [show ("false".data).getLast? = some 'e' from rfl]
            have hlen' : (renderSegs r).length ≤ fuel := by
              have hL : renderSegs (Seg.boolTok false :: r)
                  = "false".data ++ renderSegs r := rfl
              rw [hL, List.length_append] at hlen
              have h5 : ("false".data).length = 5 := rfl
              omega
            have hrec := ih [] r (some 'e') rfl hr
              (fun _ => prevOk_of_headSep _ r hf) (by simpa using hlen')
            simp only [List.nil_append] at hrec
            rw [hrec]
            rfl
        | nullTok =>
          have hb : boundaryBefore prev = true := hprev rfl
          have hfacts := after_tok_facts r hr hf
          show scanJson (fuel + 1) prev ("null".data ++ renderSegs r)
            = highlightSegs (Seg.nullTok :: r)
          rw [scanJson_tok fuel prev _ _ _ _
            (matchTok_null prev (renderSegs r) hb hfacts.1)]
          rw [show ("null".data).getLast? = some 'l' from rfl]
          have hlen' : (renderSegs r).length ≤ fuel := by
            have hL : renderSegs (Seg.nullTok :: r)
                = "null".data ++ renderSegs r := rfl
            rw [hL, List.length_append] at hlen
            have h4 : ("null".data).length = 4 := rfl
            omega
          have hrec := ih [] r (some 'l') rfl hr
            (fun _ => prevOk_of_headSep _ r hf) (by simpa using hlen')
          simp only [List.nil_append] at hrec
          rw [hrec]
          rfl
        | numTok n =>
          have hfacts := after_tok_facts r hr hf
          show scanJson (fuel + 1) prev (NumShape.render n ++ renderSegs r)
            = highlightSegs (Seg.numTok n :: r)
          rw [scanJson_tok fuel prev _ _ _ _
            (matchTok_num prev n (renderSegs r) hs hfacts.2)]
          have hlen' : (renderSegs r).length ≤ fuel := by
            have hL : renderSegs (Seg.numTok n :: r)
                = NumShape.render n ++ renderSegs r := rfl
            rw [hL, List.length_append] at hlen
            have hp : 0 < (NumShape.render n).length :=
              List.length_pos.mpr (numRender_ne_nil n hs)
            omega
          have hrec := ih [] r ((NumShape.render n).getLast?) rfl hr
            (fun _ => prevOk_of_headSep _ r hf) (by simpa using hlen')
          simp only [List.nil_append] at hrec
          rw [hrec]
          rfl

end Verify

namespace Verify

/-- C6: the JSON highlighter wraps every lexical token — string, number,
boolean literal, null literal — of a serialized JSON text in a span
carrying a class naming its lexical category, tags strings immediately
followed by a colon (after optional whitespace) as keys rather than plain
strings, leaves separator text (whitespace, braces, brackets, commas)
unaltered, and handles escaped quotes inside string bodies without
mis-detecting the string boundary: on the rendering of any well-formed
token sequence the output is exactly the per-token highlighting. -/
theorem c6_highlighter (segs : List Seg) (h : segsOk segs = true) :
    syntaxHighlight (String.mk (renderSegs segs)) = String.mk (highlightSegs segs) := by
  have hp : prevOk none segs := by
    cases segs with
    | nil => trivial
    | cons s r => cases s <;> trivial
  have h0 := scan_segs (renderSegs segs).length [] segs none rfl h
    (fun _ => hp) (by simp)
  simp only [List.nil_append] at h0
  show String.mk (scanJson (renderSegs segs).length none (renderSegs segs))
    = String.mk (highlightSegs segs)
  rw [h0]

/-- The example input of the claim, as a token sequence: an object with a
key `a` carrying the number 1 and a key `b` carrying the string `x\"y`
(an escaped quote inside the body). -/
def c6Segs : List Seg :=
  [ .sep ['\x7b'],
    .keyTok [.plain 'a'] [],
    .numTok ⟨false, ['1'], none, none⟩,
    .sep [','],
    .keyTok [.plain 'b'] [],
    .strTok [.plain 'x', .esc '"', .plain 'y'],
    .sep ['\x7d'] ]

theorem c6_witness :
    segsOk c6Segs = true
    ∧ syntaxHighlight "\x7b\"a\":1,\"b\":\"x\\\"y\"\x7d"
      = "\x7b<span class=\"json-key\">\"a\":</span><span class=\"json-number\">1</span>,<span class=\"json-key\">\"b\":</span><span class=\"json-string\">\"x\\\"y\"</span>\x7d" := by
  refine ⟨by decide, ?_⟩
  rw [show ("\x7b\"a\":1,\"b\":\"x\\\"y\"\x7d" : String)
      = String.mk (renderSegs c6Segs) by decide]
  rw [c6_highlighter c6Segs (by decide)]
  decide

end Verify
